import Mathlib

/-!
Verification development for the scryptedapp/llm tool-call orchestration core.

The definitions below are a shallow embedding of the current implementation in
`src/tool-calls.ts` and `src/main.ts`:

* JSON tool-call arguments are modelled at the parsed level (an association
  list of field name to JSON value); the permissive argument parse and
  `JSON.stringify` round trips are therefore identities of the model.
  `JSON.parse` of resource text is modelled by an explicit parameter
  `jsonParse : String → Option Jsonv` (`some v` when parsing succeeds with
  value `v`, `none` when it throws).
* The `random-words` token generator is modelled by a deterministic supply
  `mint : Nat → String` threaded through the adapter with a counter.
* JavaScript objects used as string-keyed records (`map[k] = v`,
  `Object.values`) are modelled by `recordSet`/`recordGet` on association
  lists, which preserve both last-write-wins semantics and first-insertion
  enumeration order.
* Thrown exceptions are modelled with `Except String`.
-/

namespace ScryptedLLM

deriving instance DecidableEq for Except

/-! ### Kernel-reducible string operations

The built-in byte-position-based `String` operations (`startsWith`, `drop`,
`takeWhile`, `toLower`, `isEmpty`) are modelled by their character-list
equivalents so that concrete instances evaluate inside the kernel. -/

def listPrefixEq : List Char → List Char → Bool
  | [], _ => true
  | _ :: _, [] => false
  | c :: cs, d :: ds => if c = d then listPrefixEq cs ds else false

/-- `s.startsWith(pre)`. -/
def strStartsWith (s pre : String) : Bool := listPrefixEq pre.data s.data

/-- `s.substring(n)` / `s.drop n`. -/
def strDrop (s : String) (n : Nat) : String := ⟨s.data.drop n⟩

/-- JavaScript emptiness test on a string. -/
def strIsEmpty (s : String) : Bool := s.data.isEmpty

/-- Option override: `overr x a` is `x` when `x` is `some`, otherwise `a`.
Used to describe "later match overwrites earlier match" scan semantics. -/
def overr {α : Type} : Option α → Option α → Option α
  | some v, _ => some v
  | none, a => a

theorem overr_assoc {α : Type} (x y a : Option α) :
    overr (overr x y) a = overr x (overr y a) := by
  cases x <;> rfl

theorem overr_none_right {α : Type} (x : Option α) : overr x none = x := by
  cases x <;> rfl

/-- `(x :: l).getLast? = overr l.getLast? (some x)`. -/
theorem getLast?_cons {α : Type} (x : α) (l : List α) :
    (x :: l).getLast? = overr l.getLast? (some x) := by
  cases l with
  | nil => rfl
  | cons y tl =>
    rw [List.getLast?_cons_cons]
    cases h : (y :: tl).getLast? with
    | none => exact absurd h (by simp)
    | some v => rfl

/-- Last element of an appended list, in `overr` form. -/
theorem getLast?_append {α : Type} (l₁ l₂ : List α) :
    (l₁ ++ l₂).getLast? = overr l₂.getLast? l₁.getLast? := by
  induction l₁ with
  | nil => simp [overr_none_right]
  | cons x tl ih =>
    rw [List.cons_append, getLast?_cons, ih, getLast?_cons, overr_assoc]

/-- `getLast?` commutes with `map`. -/
theorem getLast?_map {α β : Type} (f : α → β) (l : List α) :
    (l.map f).getLast? = l.getLast?.map f := by
  induction l with
  | nil => rfl
  | cons x tl ih =>
    rw [List.map_cons, getLast?_cons, getLast?_cons, ih]
    cases tl.getLast? <;> rfl

/-- A left fold whose step overrides the accumulator exactly on entries
satisfying `P` computes the last matching entry (fallback: the initial
accumulator). -/
theorem foldl_override {α β : Type} (P : β → Bool) (f : β → α) (es : List β)
    (a : Option α) :
    es.foldl (fun acc e => if P e then some (f e) else acc) a
      = overr ((es.filter P).map f).getLast? a := by
  induction es generalizing a with
  | nil => rfl
  | cons e tl ih =>
    rw [List.foldl_cons, ih]
    by_cases h : P e = true
    · simp only [List.filter_cons, h, if_pos, List.map_cons, getLast?_cons]
      rw [overr_assoc]
      cases htl : ((tl.filter P).map f).getLast? <;> rfl
    · have h' : P e = false := by revert h; cases P e <;> simp
      simp only [List.filter_cons, h', if_neg, Bool.false_eq_true, if_false]

/-- JavaScript string-keyed record assignment `r[k] = v`: overwrite in place
when the key exists (keeping first-insertion order), else append. -/
def recordSet {α : Type} (r : List (String × α)) (k : String) (v : α) :
    List (String × α) :=
  if r.any (fun p => p.1 == k) then
    r.map (fun p => if p.1 == k then (k, v) else p)
  else r ++ [(k, v)]

/-- JavaScript record read `r[k]` / `Map.get`. -/
def recordGet {α : Type} (r : List (String × α)) (k : String) : Option α :=
  (r.find? (fun p => p.1 == k)).map (fun p => p.2)

theorem recordGet_nil {α : Type} (k : String) :
    recordGet ([] : List (String × α)) k = none := rfl

theorem find?_append {α : Type} (q : α → Bool) (l₁ l₂ : List α) :
    (l₁ ++ l₂).find? q = overr (l₁.find? q) (l₂.find? q) := by
  induction l₁ with
  | nil => rfl
  | cons x tl ih =>
    by_cases hx : q x = true
    · simp [List.find?, hx, overr]
    · have hx' : q x = false := by revert hx; cases q x <;> simp
      simp [List.find?, hx', ih]

theorem find?_of_any_false {α : Type} (q : α → Bool) (l : List α)
    (h : l.any q = false) : l.find? q = none := by
  induction l with
  | nil => rfl
  | cons x tl ih =>
    simp only [List.any_cons, Bool.or_eq_false_iff] at h
    simp [List.find?, h.1, ih h.2]

theorem find?_map_keyfix {α : Type} (k k' : String) (v : α) (h : k' ≠ k)
    (r : List (String × α)) :
    (r.map (fun p => if p.1 == k then (k, v) else p)).find? (fun p => p.1 == k')
      = r.find? (fun p => p.1 == k') := by
  induction r with
  | nil => rfl
  | cons p tl ih =>
    rw [List.map_cons]
    by_cases hp : p.1 = k
    · have h1 : (p.1 == k) = true := beq_iff_eq.mpr hp
      have h2 : (k == k') = false := beq_eq_false_iff_ne.mpr (Ne.symm h)
      have h3 : (p.1 == k') = false := beq_eq_false_iff_ne.mpr (by rw [hp]; exact Ne.symm h)
      rw [if_pos h1]
      rw [List.find?_cons_of_neg _ (by rw [h2]; exact Bool.false_ne_true)]
      rw [List.find?_cons_of_neg _ (by rw [h3]; exact Bool.false_ne_true)]
      exact ih
    · have h1 : (p.1 == k) = false := beq_eq_false_iff_ne.mpr hp
      rw [if_neg (by rw [h1]; exact Bool.false_ne_true)]
      by_cases hq : p.1 = k'
      · have h2 : (p.1 == k') = true := beq_iff_eq.mpr hq
        simp only [List.find?_cons, h2]
      · have h2 : (p.1 == k') = false := beq_eq_false_iff_ne.mpr hq
        simp only [List.find?_cons, h2]
        exact ih

theorem find?_map_self {α : Type} (k : String) (v : α) (r : List (String × α))
    (hany : r.any (fun p => p.1 == k) = true) :
    (r.map (fun p => if p.1 == k then (k, v) else p)).find? (fun p => p.1 == k)
      = some (k, v) := by
  induction r with
  | nil => simp at hany
  | cons p tl ih =>
    rw [List.map_cons]
    by_cases hp : p.1 = k
    · have h1 : (p.1 == k) = true := beq_iff_eq.mpr hp
      rw [if_pos h1]
      exact List.find?_cons_of_pos _ (beq_iff_eq.mpr rfl)
    · have h1 : (p.1 == k) = false := beq_eq_false_iff_ne.mpr hp
      simp only [List.any_cons, h1, Bool.false_or] at hany
      rw [if_neg (by rw [h1]; exact Bool.false_ne_true)]
      rw [List.find?_cons_of_neg _ (by rw [h1]; exact Bool.false_ne_true)]
      exact ih hany

theorem recordGet_set_self {α : Type} (r : List (String × α)) (k : String) (v : α) :
    recordGet (recordSet r k v) k = some v := by
  unfold recordSet
  by_cases hany : r.any (fun p => p.1 == k) = true
  · rw [if_pos hany]
    unfold recordGet
    rw [find?_map_self k v r hany]
    rfl
  · have hany' : r.any (fun p => p.1 == k) = false := by
      revert hany; cases r.any (fun p => p.1 == k) <;> simp
    rw [if_neg (by rw [hany']; exact Bool.false_ne_true)]
    unfold recordGet
    rw [find?_append, find?_of_any_false _ _ hany']
    simp [List.find?, overr]

theorem recordGet_set_other {α : Type} (r : List (String × α)) (k k' : String)
    (v : α) (h : k' ≠ k) : recordGet (recordSet r k v) k' = recordGet r k' := by
  unfold recordSet
  by_cases hany : r.any (fun p => p.1 == k) = true
  · rw [if_pos hany]
    unfold recordGet
    rw [find?_map_keyfix k k' v h r]
  · rw [if_neg hany]
    unfold recordGet
    rw [find?_append]
    have h2 : (k == k') = false := beq_eq_false_iff_ne.mpr (Ne.symm h)
    simp [List.find?, h2, overr_none_right]

/-- Reading a record built by repeated `recordSet` returns the value of the
last entry written at that key (JavaScript last-write-wins). -/
theorem recordGet_foldl_set {α β : Type} (key : String) (nm : β → String)
    (vl : β → α) (es : List β) (r0 : List (String × α)) :
    recordGet (es.foldl (fun r e => recordSet r (nm e) (vl e)) r0) key
      = overr (((es.filter (fun e => nm e == key)).map vl).getLast?)
          (recordGet r0 key) := by
  induction es generalizing r0 with
  | nil => rfl
  | cons e tl ih =>
    rw [List.foldl_cons, ih]
    by_cases he : nm e = key
    · have h1 : (nm e == key) = true := beq_iff_eq.mpr he
      have h2 : recordGet (recordSet r0 (nm e) (vl e)) key = some (vl e) := by
        rw [he, recordGet_set_self]
      simp only [List.filter_cons, h1, if_pos, List.map_cons, getLast?_cons, h2]
      rw [overr_assoc]
      cases ((tl.filter (fun e => nm e == key)).map vl).getLast? <;> rfl
    · have h1 : (nm e == key) = false := beq_eq_false_iff_ne.mpr he
      have h2 : recordGet (recordSet r0 (nm e) (vl e)) key = recordGet r0 key :=
        recordGet_set_other r0 (nm e) key (vl e) (Ne.symm he)
      simp only [List.filter_cons, h1, Bool.false_eq_true, if_false, h2]

/-! ## Data model

Mirrors the `@scrypted/types` / OpenAI shapes used by `src/tool-calls.ts` and
`src/main.ts`, restricted to the fields the core reads or writes. -/

/-- A parsed JSON value as observed by the dispatch logic: string values are
inspected (`typeof value === 'string'`, `chat://` prefix); every other JSON
value only matters through its truthiness. -/
inductive Jsonv
  | str (s : String)
  | other (truthy : Bool)
deriving DecidableEq

/-- JavaScript truthiness of a resolved value (`if (src) ...`). -/
def Jsonv.isTruthy : Jsonv → Bool
  | .str s => !(strIsEmpty s)
  | .other t => t

/-- Tool-call arguments at the parsed level: the JSON object
`partialParse(tc.function.arguments)` as an association list. -/
abbrev Args := List (String × Jsonv)

/-- One property of a declared JSON parameter schema
(`tool.function.parameters.properties[param]`): the dispatcher reads
`type`, `format` and the non-standard `mimeType` hint. -/
structure ParamSchema where
  type : String
  format : Option String
  mimeType : Option String
deriving DecidableEq

/-- A declared parameter schema (`tool.function.parameters`). -/
structure ToolSchema where
  properties : List (String × ParamSchema)
  required : List String
  additionalProperties : Bool
deriving DecidableEq

/-- `tool.function` of a `ChatCompletionTool`. -/
structure ToolFn where
  name : String
  description : String
  parameters : Option ToolSchema
deriving DecidableEq

/-- A `ChatCompletionTool` descriptor (`{type, function}`). -/
structure ChatTool where
  callType : String
  fn : ToolFn
deriving DecidableEq

/-- A content part of a `CallToolResult`.  `resource` carries the
`content._meta['chat.scrypted.app/'].mutable` hint as `mutableParam`;
`other` stands for any content type the adapter does not know. -/
inductive ToolContent
  | text (text : String)
  | image (mimeType : String) (data : String)
  | audio (mimeType : String) (data : String)
  | resource (mimeType : String) (text : String) (mutableParam : Option String)
  | other (contentType : String)
deriving DecidableEq

/-- An entry of `_meta['chat.scrypted.app/'].images`
(`{token, src, width: '100%', height: 'auto'}`). -/
structure ImageEntry where
  token : String
  src : String
  width : String
  height : String
deriving DecidableEq

/-- An entry of `_meta['chat.scrypted.app/'].audio` (`{token, src}`). -/
structure AudioEntry where
  token : String
  src : String
deriving DecidableEq

/-- An entry of `_meta['chat.scrypted.app/'].resources`
(`{token, text, mimeType}`). -/
structure ResourceEntry where
  token : String
  text : String
  mimeType : String
deriving DecidableEq

/-- The `_meta['chat.scrypted.app/']` side channel of a tool result. -/
structure ChatMeta where
  images : List ImageEntry
  audio : List AudioEntry
  resources : List ResourceEntry
deriving DecidableEq

/-- A `CallToolResult`: content parts, the `chat.scrypted.app/` metadata
(`none` models an absent `_meta`), and the MCP error flag. -/
structure CallToolResult where
  content : List ToolContent
  meta : Option ChatMeta
  isError : Bool
deriving DecidableEq

/-- The empty `chat.scrypted.app/` metadata object. -/
def emptyMeta : ChatMeta := ⟨[], [], []⟩

/-- `result._meta?.['chat.scrypted.app/']` with the `||= {}` default. -/
def CallToolResult.metaD (r : CallToolResult) : ChatMeta := r.meta.getD emptyMeta

/-- `tc.function` of a tool call: name plus (parsed) arguments string. -/
structure ToolCallFn where
  name : String
  arguments : Args
deriving DecidableEq

/-- A `ParsedFunctionToolCall` (`{id, type, function}`). -/
structure ToolCall where
  id : String
  callType : String
  fn : ToolCallFn
deriving DecidableEq

/-- A content part of a synthetic user message (text or `image_url`). -/
inductive UserPart
  | text (t : String)
  | imageUrl (url : String)
deriving DecidableEq

/-- The mutable fields of the assistant message that `handleToolCalls`
rewrites: `tool_calls` (`none` models a deleted/absent field) and
`function_call` (`none` models `null`/absent). -/
structure AssistantTurn where
  content : String
  toolCalls : Option (List ToolCall)
  functionCall : Option ToolCallFn
deriving DecidableEq

/-- A provider chat message (`ChatCompletionMessageParam`), restricted to the
shapes the core produces. -/
inductive ChatMessage
  | system (content : String)
  | userText (content : String)
  | userParts (parts : List UserPart)
  | assistant (turn : AssistantTurn)
  | tool (toolCallId : String) (content : String)
deriving DecidableEq

inductive Role
  | system | user | assistant | tool
deriving DecidableEq

def ChatMessage.role : ChatMessage → Role
  | .system _ => .system
  | .userText _ => .user
  | .userParts _ => .user
  | .assistant _ => .assistant
  | .tool _ _ => .tool

/-- The base64 data URL built for binary content
(`\x60data:${content.mimeType};base64,${content.data}\x60`). -/
def dataUrl (mimeType data : String) : String :=
  "data:" ++ mimeType ++ ";base64," ++ data

/-- `new URL(value).host` for a `chat://token` URL: the authority component,
lowercased (models the WHATWG URL parser on the URLs this code builds). -/
def urlHost (s : String) : String :=
  ⟨(((s.data.drop 7).takeWhile (fun c => c ≠ '/')).map Char.toLower)⟩

/-! ## Blob reference resolver — `findChatBlob` (`src/tool-calls.ts:68-123`)

The scan walks the whole history; a match overwrites `mutableValue` and the
loop continues, so the last matching entry in scan order wins.  Only the
`resources` branch checks `requiredMimeType` and can throw
`InvalidBlobMimeTypeError`. -/

/-- The `InvalidBlobMimeTypeError` message (`src/tool-calls.ts:62-66`). -/
def mimeMismatchMessage (expected actual : String) : String :=
  "Tool call failed. The tool expected url with mime type " ++ expected
    ++ ", but got " ++ actual

/-- Value of a matched resource entry: JSON-parse the text when the stored
mime type is `application/json` (falling back to the raw text when parsing
throws), else the raw text (`src/tool-calls.ts:107-115`). -/
def resourceValue (jsonParse : String → Option Jsonv) (e : ResourceEntry) : Jsonv :=
  if e.mimeType == "application/json" then
    match jsonParse e.text with
    | some v => v
    | none => .str e.text
  else .str e.text

/-- Scan of `meta.images` (`src/tool-calls.ts:78-86`). -/
def scanImages (token : String) (acc : Option Jsonv) (entries : List ImageEntry) :
    Option Jsonv :=
  entries.foldl (fun a e => if e.token == token then some (.str e.src) else a) acc

/-- Scan of `meta.audio` (`src/tool-calls.ts:89-97`). -/
def scanAudio (token : String) (acc : Option Jsonv) (entries : List AudioEntry) :
    Option Jsonv :=
  entries.foldl (fun a e => if e.token == token then some (.str e.src) else a) acc

/-- Scan of `meta.resources` (`src/tool-calls.ts:99-119`): on a token match,
first the `requiredMimeType` check (throwing on mismatch), then the value. -/
def scanResources (jsonParse : String → Option Jsonv) (token : String)
    (req : Option String) (acc : Option Jsonv) :
    List ResourceEntry → Except String (Option Jsonv)
  | [] => .ok acc
  | e :: rest =>
    if e.token == token then
      match req with
      | some r =>
        if e.mimeType ≠ r then .error (mimeMismatchMessage r e.mimeType)
        else scanResources jsonParse token req (some (resourceValue jsonParse e)) rest
      | none => scanResources jsonParse token req (some (resourceValue jsonParse e)) rest
    else scanResources jsonParse token req acc rest

/-- Scan of one history entry's metadata (images, then audio, then
resources); a missing `_meta['chat.scrypted.app/']` is skipped. -/
def scanResult (jsonParse : String → Option Jsonv) (token : String)
    (req : Option String) (acc : Option Jsonv) (m : CallToolResult) :
    Except String (Option Jsonv) :=
  match m.meta with
  | none => .ok acc
  | some meta =>
    scanResources jsonParse token req
      (scanAudio token (scanImages token acc meta.images) meta.audio)
      meta.resources

def findChatBlobGo (jsonParse : String → Option Jsonv) (token : String)
    (req : Option String) (acc : Option Jsonv) :
    List CallToolResult → Except String (Option Jsonv)
  | [] => .ok acc
  | m :: rest =>
    match scanResult jsonParse token req acc m with
    | .error e => .error e
    | .ok acc' => findChatBlobGo jsonParse token req acc' rest

/-- `findChatBlob(token, history, requiredMimeType?)`
(`src/tool-calls.ts:68-123`): full chronological scan, returning the last
match (`.ok none` models returning `undefined`), or throwing
`InvalidBlobMimeTypeError`. -/
def findChatBlob (jsonParse : String → Option Jsonv) (token : String)
    (history : List CallToolResult) (req : Option String) :
    Except String (Option Jsonv) :=
  findChatBlobGo jsonParse token req none history

/-! ### Pure characterization of the scan (no required mime type)

With `requiredMimeType` absent the scan cannot throw; it computes the value
of the last matching metadata entry in scan order (per history entry:
images, then audio, then resources, each in list order). -/

/-- The values of all metadata entries of one history entry matching `token`,
in the order `findChatBlob` visits them. -/
def matchingValues (jsonParse : String → Option Jsonv) (token : String)
    (m : CallToolResult) : List Jsonv :=
  match m.meta with
  | none => []
  | some meta =>
    ((meta.images.filter (fun e => e.token == token)).map (fun e => Jsonv.str e.src))
      ++ ((meta.audio.filter (fun e => e.token == token)).map (fun e => Jsonv.str e.src))
      ++ ((meta.resources.filter (fun e => e.token == token)).map (resourceValue jsonParse))

theorem scanImages_eq (token : String) (acc : Option Jsonv) (es : List ImageEntry) :
    scanImages token acc es
      = overr ((es.filter (fun e => e.token == token)).map
          (fun e => Jsonv.str e.src)).getLast? acc := by
  unfold scanImages
  exact foldl_override (fun e => e.token == token) (fun e => Jsonv.str e.src) es acc

theorem scanAudio_eq (token : String) (acc : Option Jsonv) (es : List AudioEntry) :
    scanAudio token acc es
      = overr ((es.filter (fun e => e.token == token)).map
          (fun e => Jsonv.str e.src)).getLast? acc := by
  unfold scanAudio
  exact foldl_override (fun e => e.token == token) (fun e => Jsonv.str e.src) es acc

/-- Unfolding equation for `scanResources` on a cons cell. -/
theorem scanResources_cons (jsonParse : String → Option Jsonv) (token : String)
    (req : Option String) (acc : Option Jsonv) (e : ResourceEntry)
    (rest : List ResourceEntry) :
    scanResources jsonParse token req acc (e :: rest)
      = if e.token == token then
          match req with
          | some r =>
            if e.mimeType ≠ r then .error (mimeMismatchMessage r e.mimeType)
            else scanResources jsonParse token req (some (resourceValue jsonParse e)) rest
          | none => scanResources jsonParse token req (some (resourceValue jsonParse e)) rest
        else scanResources jsonParse token req acc rest := rfl

theorem scanResources_none (jsonParse : String → Option Jsonv) (token : String)
    (acc : Option Jsonv) (es : List ResourceEntry) :
    scanResources jsonParse token none acc es
      = .ok (overr ((es.filter (fun e => e.token == token)).map
          (resourceValue jsonParse)).getLast? acc) := by
  induction es generalizing acc with
  | nil => rfl
  | cons e rest ih =>
    by_cases he : (e.token == token) = true
    · rw [scanResources_cons, if_pos he]
      show scanResources jsonParse token none (some (resourceValue jsonParse e)) rest = _
      rw [ih, List.filter_cons, if_pos he, List.map_cons, getLast?_cons, overr_assoc]
      rfl
    · rw [scanResources_cons, if_neg he, ih, List.filter_cons, if_neg he]

theorem scanResult_none (jsonParse : String → Option Jsonv) (token : String)
    (acc : Option Jsonv) (m : CallToolResult) :
    scanResult jsonParse token none acc m
      = .ok (overr (matchingValues jsonParse token m).getLast? acc) := by
  cases hm : m.meta with
  | none => simp only [scanResult, matchingValues, hm]; rfl
  | some meta =>
    simp only [scanResult, matchingValues, hm]
    rw [scanResources_none, scanImages_eq, scanAudio_eq]
    rw [getLast?_append, getLast?_append, overr_assoc, overr_assoc]

theorem findChatBlobGo_none (jsonParse : String → Option Jsonv) (token : String)
    (acc : Option Jsonv) (hist : List CallToolResult) :
    findChatBlobGo jsonParse token none acc hist
      = .ok (overr (hist.flatMap (matchingValues jsonParse token)).getLast? acc) := by
  induction hist generalizing acc with
  | nil => rfl
  | cons m rest ih =>
    show (match scanResult jsonParse token none acc m with
      | Except.error e => Except.error e
      | Except.ok acc' => findChatBlobGo jsonParse token none acc' rest) = _
    rw [scanResult_none]
    show findChatBlobGo jsonParse token none
        (overr (matchingValues jsonParse token m).getLast? acc) rest = _
    rw [ih, List.flatMap_cons, getLast?_append, overr_assoc]

theorem flatMap_eq_nil_of_forall {α β : Type} (f : α → List β) (es : List α)
    (h : ∀ m ∈ es, f m = []) : es.flatMap f = [] := by
  induction es with
  | nil => rfl
  | cons m rest ih =>
    rw [List.flatMap_cons, h m (by simp), List.nil_append]
    exact ih (fun x hx => h x (by simp [hx]))

/-! ## Tool registry — `prepareTools` (`src/tool-calls.ts:9-60`) -/

/-- A tool provider (`LLMTools`): an identity, the (fallible) tool listing,
and `callLLMTool(toolCallId, name, parsedArguments)`, which may throw. -/
structure LLMTools where
  pid : Nat
  getLLMTools : Except String (List ChatTool)
  callLLMTool : String → String → Args → Except String CallToolResult

/-- The default parameter schema filled in when a tool declares none
(`tool.function.parameters ||= {type: object, properties: {}, required: [],
additionalProperties: false}`). -/
def defaultParameters : ToolSchema := ⟨[], [], false⟩

def fillParameters (t : ChatTool) : ChatTool :=
  match t.fn.parameters with
  | some _ => t
  | none => { t with fn := { t.fn with parameters := some defaultParameters } }

def replaceFirstDashAux : List Char → List Char
  | [] => []
  | c :: cs => if c = '-' then '_' :: cs else c :: replaceFirstDashAux cs

/-- JavaScript `name.replace('-', '_')` with a string pattern: only the first
occurrence is replaced. -/
def replaceFirstDash (s : String) : String := ⟨replaceFirstDashAux s.data⟩

/-- The flattened `(provider, tool)` tuples: `Promise.allSettled` drops every
provider whose `getLLMTools` rejected (`src/tool-calls.ts:28`). -/
def toolTuples (provs : List LLMTools) : List (LLMTools × ChatTool) :=
  provs.flatMap (fun p =>
    match p.getLLMTools with
    | .ok ts => ts.map (fun t => (p, fillParameters t))
    | .error _ => [])

/-- The in-place rename `entry.tool.function.name = noDashName`. -/
def renameTool (t : ChatTool) (nd : String) : ChatTool :=
  { t with fn := { t.fn with name := nd } }

/-- The registration loop (`src/tool-calls.ts:33-39`) performs three
record writes per tuple; they target three distinct stores, modelled as
three folds over the same tuple list. -/
def prepMap (tuples : List (LLMTools × ChatTool)) : List (String × LLMTools) :=
  tuples.foldl (fun r e => recordSet r (replaceFirstDash e.2.fn.name) e.1) []

/-- `originalNames.set(noDashName, entry.tool.function.name)` — recorded
before the rename, so it maps the advertised name back to the declared one. -/
def prepOriginalNames (tuples : List (LLMTools × ChatTool)) : List (String × String) :=
  tuples.foldl (fun r e => recordSet r (replaceFirstDash e.2.fn.name) e.2.fn.name) []

def prepToolMap (tuples : List (LLMTools × ChatTool)) : List (String × ChatTool) :=
  tuples.foldl (fun r e =>
    recordSet r (replaceFirstDash e.2.fn.name)
      (renameTool e.2 (replaceFirstDash e.2.fn.name))) []

structure PreparedTools where
  map : List (String × LLMTools)
  originalNames : List (String × String)
  tools : List ChatTool

def prepareTools (provs : List LLMTools) : PreparedTools :=
  let tuples := toolTuples provs
  ⟨prepMap tuples, prepOriginalNames tuples,
    (prepToolMap tuples).map (fun p => p.2)⟩

/-! ## Dispatch — the inner `toolCall` closure (`src/tool-calls.ts:43-53`) -/

def TimeToolFunctionName : String := "get-time"

/-- Models `callGetTimeTool()` (`src/time-tool.ts`): formats the current
local time and time zone.  The environment-dependent value is abstracted as
a fixed string; note the function returns a bare string, not a
`CallToolResult`. -/
def callGetTimeTool : String := "[local time] [time zone]"

/-- What the `toolCall` closure returns: either the bare time string from
the `get-time` intercept, or the provider's `CallToolResult`. -/
inductive ToolResponse
  | timeString (s : String)
  | result (r : CallToolResult)
deriving DecidableEq

/-- The thrown message `\x60Tool ${toolCall} not found.\x60`: the template
interpolates the tool-call object itself, which stringifies to
`[object Object]`. -/
def toolNotFoundMessage : String := "Tool [object Object] not found."

/-- `toolCall(tc)`: look up provider and original name by the advertised
name; throw when either is missing; intercept the time tool; otherwise call
the owning provider with the ORIGINAL declared name.  Provider exceptions
are not caught here. -/
def toolCall (pt : PreparedTools) (tc : ToolCall) : Except String ToolResponse :=
  match recordGet pt.map tc.fn.name, recordGet pt.originalNames tc.fn.name with
  | some tool, some originalName =>
    if originalName == TimeToolFunctionName then .ok (.timeString callGetTimeTool)
    else (tool.callLLMTool tc.id originalName tc.fn.arguments).map .result
  | some _, none => .error toolNotFoundMessage
  | none, _ => .error toolNotFoundMessage

/-! ## Argument rewriting (`src/tool-calls.ts:140-164`)

The `try` block walks the declared parameter properties; for each
string-typed, uri-formatted parameter whose (string) value starts with
`chat://` it resolves the token and, when the resolved value is truthy,
substitutes it and records the raw token in `chatUrls`.  Any exception
(notably `InvalidBlobMimeTypeError`) is swallowed by the empty `catch`,
abandoning the rest of the loop but keeping earlier substitutions. -/

structure ResolveState where
  args : Args
  chatUrls : List (String × String)
deriving DecidableEq

def resolveArgs (jsonParse : String → Option Jsonv)
    (toolHistory : List CallToolResult) :
    List (String × ParamSchema) → ResolveState → ResolveState
  | [], st => st
  | (param, schemaValue) :: rest, st =>
    match recordGet st.args param with
    | some (.str value) =>
      if schemaValue.type == "string" && schemaValue.format == some "uri" then
        if strStartsWith value "chat://" then
          match findChatBlob jsonParse (urlHost value) toolHistory schemaValue.mimeType with
          | .error _ => st
          | .ok src =>
            match src with
            | some v =>
              if v.isTruthy then
                resolveArgs jsonParse toolHistory rest
                  ⟨recordSet st.args param v, recordSet st.chatUrls param (strDrop value 7)⟩
              else resolveArgs jsonParse toolHistory rest st
            | none => resolveArgs jsonParse toolHistory rest st
        else resolveArgs jsonParse toolHistory rest st
      else resolveArgs jsonParse toolHistory rest st
    | _ => resolveArgs jsonParse toolHistory rest st

/-! ## Tool-result-to-message adapter (`src/tool-calls.ts:176-295`) -/

/-- Session capabilities (`ChatCompletionCapabilities`), restricted to the
two flags the adapter reads. -/
structure Capabilities where
  image : Bool
  audio : Bool
deriving DecidableEq

def capImage : Option Capabilities → Bool
  | some c => c.image
  | none => false

def capAudio : Option Capabilities → Bool
  | some c => c.audio
  | none => false

/-- `_meta ||= {}; meta = _meta['chat.scrypted.app/'] ||= {};
meta.images ||= []; meta.images.push(e)`. -/
def pushImageEntry (meta : Option ChatMeta) (e : ImageEntry) : Option ChatMeta :=
  let m := meta.getD emptyMeta
  some { m with images := m.images ++ [e] }

def pushAudioEntry (meta : Option ChatMeta) (e : AudioEntry) : Option ChatMeta :=
  let m := meta.getD emptyMeta
  some { m with audio := m.audio ++ [e] }

def pushResourceEntry (meta : Option ChatMeta) (e : ResourceEntry) : Option ChatMeta :=
  let m := meta.getD emptyMeta
  some { m with resources := m.resources ++ [e] }

def imageInlineNotice : String := "The next user message will include the image."

def imageFileHeader (tcId : String) : String :=
  "Image file from tool call id " ++ tcId ++ ":"

def imageTokenNotice (token : String) : String :=
  "The image was presented to the user. The image can be used in other tools using the following URL: `chat://"
    ++ token ++ "`."

def audioInlineNotice : String := "The next user message will include the audio."

def audioAvailableMessage (token : String) : String :=
  "Audio file is available at: `chat://" ++ token ++ "`"

def audioTokenNotice (token : String) : String :=
  "The audio was presented to the user. The audio can be used in other tools using the following URL: `chat://"
    ++ token ++ "`."

def resourceNotice (token : String) : String :=
  "The tool resource was returned. You MUST use the readChatUrl(url: string) function within the evaluate-js tool to query this data using the following URL: `chat://"
    ++ token ++ "`."

def unsupportedContentMessage (contentType : String) : String :=
  "Unsupported content type " ++ contentType ++ " in tool call response."

/-- State accumulated by the per-content loop: the summary lines
(`messageStrings`), the provider messages pushed after the tool-role
message, the result's `chat.scrypted.app/` metadata, and the token-supply
counter. -/
structure AdaptState where
  strs : List String
  extra : List ChatMessage
  meta : Option ChatMeta
  fresh : Nat
deriving DecidableEq

/-- One iteration of the content loop (`src/tool-calls.ts:188-293`). -/
def adaptContent (mint : Nat → String) (capabilities : Option Capabilities)
    (tcId : String) (tool : Option ChatTool) (chatUrls : List (String × String))
    (st : AdaptState) : ToolContent → Except String AdaptState
  | .text t => .ok { st with strs := st.strs ++ [t] }
  | .image mimeType data =>
    let url := dataUrl mimeType data
    if capImage capabilities then
      .ok { st with
        strs := st.strs ++ [imageInlineNotice],
        extra := st.extra ++ [ChatMessage.assistant ⟨"Ok.", none, none⟩,
          ChatMessage.userParts [.text (imageFileHeader tcId), .imageUrl url]] }
    else
      let token := mint st.fresh
      .ok { st with
        strs := st.strs ++ [imageTokenNotice token],
        meta := pushImageEntry st.meta ⟨token, url, "100%", "auto"⟩,
        fresh := st.fresh + 1 }
  | .audio mimeType data =>
    let url := dataUrl mimeType data
    if capAudio capabilities then
      let token := mint st.fresh
      .ok { st with
        strs := st.strs ++ [audioInlineNotice],
        extra := st.extra ++ [ChatMessage.assistant ⟨"Ok.", none, none⟩,
          ChatMessage.userText (audioAvailableMessage token)],
        meta := pushAudioEntry st.meta ⟨token, url⟩,
        fresh := st.fresh + 1 }
    else
      let token := mint st.fresh
      .ok { st with
        strs := st.strs ++ [audioTokenNotice token],
        meta := pushAudioEntry st.meta ⟨token, url⟩,
        fresh := st.fresh + 1 }
  | .resource mimeType text mutableParam =>
    match mutableParam with
    | some mp =>
      match tool with
      | none =>
        .error "TypeError: Cannot read properties of undefined (reading parameters)"
      | some t =>
        let reused : Option String :=
          match t.fn.parameters with
          | some ps =>
            match ps.properties.find? (fun p => p.1 == mp) with
            | some prop => recordGet chatUrls prop.1
            | none => none
          | none => none
        match reused with
        | some tk =>
          if strIsEmpty tk then
            let token := mint st.fresh
            .ok { st with
              strs := st.strs ++ [resourceNotice token],
              meta := pushResourceEntry st.meta ⟨token, text, mimeType⟩,
              fresh := st.fresh + 1 }
          else
            .ok { st with
              strs := st.strs ++ [resourceNotice tk],
              meta := pushResourceEntry st.meta ⟨tk, text, mimeType⟩ }
        | none =>
          let token := mint st.fresh
          .ok { st with
            strs := st.strs ++ [resourceNotice token],
            meta := pushResourceEntry st.meta ⟨token, text, mimeType⟩,
            fresh := st.fresh + 1 }
    | none =>
      let token := mint st.fresh
      .ok { st with
        strs := st.strs ++ [resourceNotice token],
        meta := pushResourceEntry st.meta ⟨token, text, mimeType⟩,
        fresh := st.fresh + 1 }
  | .other contentType => .error (unsupportedContentMessage contentType)

def adaptAll (mint : Nat → String) (capabilities : Option Capabilities)
    (tcId : String) (tool : Option ChatTool) (chatUrls : List (String × String))
    (st : AdaptState) : List ToolContent → Except String AdaptState
  | [] => .ok st
  | c :: rest =>
    match adaptContent mint capabilities tcId tool chatUrls st c with
    | .error e => .error e
    | .ok st' => adaptAll mint capabilities tcId tool chatUrls st' rest

/-- Assemble the provider messages for one tool call: the tool-role message
(summary lines joined with a line break) followed by the side-effect
messages, plus the enriched result and the advanced token counter. -/
def buildToolMessages (mint : Nat → String) (capabilities : Option Capabilities)
    (tcId : String) (tool : Option ChatTool) (chatUrls : List (String × String))
    (r : CallToolResult) (fresh : Nat) :
    Except String (List ChatMessage × CallToolResult × Nat) :=
  match adaptAll mint capabilities tcId tool chatUrls ⟨[], [], r.meta, fresh⟩ r.content with
  | .error e => .error e
  | .ok st =>
    .ok (ChatMessage.tool tcId (String.intercalate "\n" st.strs) :: st.extra,
      { r with meta := st.meta }, st.fresh)

/-! ## Per-call dispatch and the turn loop — `handleToolCalls`
(`src/tool-calls.ts:125-312`) -/

/-- One `allMessages` entry (`ToolCallData`). -/
structure ToolCallData where
  toolCall : ToolCall
  callToolResult : CallToolResult
  messages : List ChatMessage
deriving DecidableEq

/-- The `get-time` intercept returns a bare string; the content loop then
iterates `response.content`, which is `undefined` on a string, so the turn
throws a `TypeError`. -/
def stringContentError : String := "TypeError: response.content is not iterable"

/-- Packaging of the adapter output into an `allMessages` entry. -/
def dispatchAssemble (tc' : ToolCall)
    (b : Except String (List ChatMessage × CallToolResult × Nat)) :
    Except String (ToolCallData × Nat) :=
  match b with
  | .error e => .error e
  | .ok (msgs, r', fresh') => .ok (⟨tc', r', msgs⟩, fresh')

/-- The tail of a single dispatch, after argument rewriting: provider
invocation (exceptions NOT swallowed) followed by the adapter. -/
def dispatchOutcome (mint : Nat → String)
    (pt : PreparedTools) (capabilities : Option Capabilities)
    (tool : Option ChatTool) (urls : List (String × String)) (fresh : Nat)
    (tc' : ToolCall) : Except String (ToolCallData × Nat) :=
  match toolCall pt tc' with
  | .error e => .error e
  | .ok (.timeString _) => .error stringContentError
  | .ok (.result r) =>
    dispatchAssemble tc' (buildToolMessages mint capabilities tc'.id tool urls r fresh)

/-- Dispatch of a single tool call: argument rewriting (exceptions
swallowed), provider invocation (exceptions NOT swallowed), then the
adapter. -/
def processCall (jsonParse : String → Option Jsonv) (mint : Nat → String)
    (pt : PreparedTools) (toolHistory : List CallToolResult)
    (capabilities : Option Capabilities) (fresh : Nat) (tc : ToolCall) :
    Except String (ToolCallData × Nat) :=
  let tool := pt.tools.find? (fun t => t.callType == "function" && t.fn.name == tc.fn.name)
  let rs : ResolveState :=
    match tool with
    | some t =>
      match t.fn.parameters with
      | some ps => resolveArgs jsonParse toolHistory ps.properties ⟨tc.fn.arguments, []⟩
      | none => ⟨tc.fn.arguments, []⟩
    | none => ⟨tc.fn.arguments, []⟩
  let tc' : ToolCall := { tc with fn := { tc.fn with arguments := rs.args } }
  dispatchOutcome mint pt capabilities tool rs.chatUrls fresh tc'

/-- Cons the finished entry onto the remaining loop's output. -/
def goAssemble (d : ToolCallData)
    (x : Except String (List ToolCallData × Nat × AssistantTurn)) :
    Except String (List ToolCallData × Nat × AssistantTurn) :=
  match x with
  | .error e => .error e
  | .ok (ds, f, m) => .ok (d :: ds, f, m)

def handleToolCallsGo (jsonParse : String → Option Jsonv) (mint : Nat → String)
    (pt : PreparedTools) (toolHistory : List CallToolResult)
    (assistantUsesFunctionCalls : Bool) (capabilities : Option Capabilities) :
    List ToolCall → Nat → AssistantTurn →
    Except String (List ToolCallData × Nat × AssistantTurn)
  | [], fresh, message => .ok ([], fresh, message)
  | tc :: rest, fresh, message =>
    match processCall jsonParse mint pt toolHistory capabilities fresh tc with
    | .error e => .error e
    | .ok (d, fresh') =>
      goAssemble d (handleToolCallsGo jsonParse mint pt toolHistory
        assistantUsesFunctionCalls capabilities rest fresh'
        (if assistantUsesFunctionCalls then
          { message with functionCall := some d.toolCall.fn } else message))

def noToolCallsMessage : String := "Message does not contain tool calls."

/-- The post-loop rewrite of the assistant message:
`if (assistantUsesFunctionCalls) delete message.tool_calls;` followed by the
unconditional `message.function_call = null;`. -/
def finishHandle (assistantUsesFunctionCalls : Bool)
    (x : Except String (List ToolCallData × Nat × AssistantTurn)) :
    Except String (List ToolCallData × AssistantTurn) :=
  match x with
  | .error e => .error e
  | .ok (ds, _, m) =>
    .ok (ds, { (if assistantUsesFunctionCalls then { m with toolCalls := none } else m) with
      functionCall := none })

/-- `handleToolCalls` (`src/tool-calls.ts:125-312`): sequential dispatch of
the assistant turn's tool calls, then the legacy-function-call rewrite of
the assistant message. -/
def handleToolCalls (jsonParse : String → Option Jsonv) (mint : Nat → String)
    (pt : PreparedTools) (message : AssistantTurn)
    (toolHistory : List CallToolResult) (assistantUsesFunctionCalls : Bool)
    (capabilities : Option Capabilities) :
    Except String (List ToolCallData × AssistantTurn) :=
  match message.toolCalls with
  | none => .error noToolCallsMessage
  | some tcs =>
    finishHandle assistantUsesFunctionCalls
      (handleToolCallsGo jsonParse mint pt toolHistory
        assistantUsesFunctionCalls capabilities tcs 0 message)

/-! ## Streaming driver — `ensureLastMessageIsUserOrToolMessage`
(`src/main.ts:98-112`)

The wrapper calls this helper before every backend request (`src/main.ts:114`
and `159`), so a request is sent exactly when the helper returns normally.
The helper is a `while (true)` loop; one iteration either breaks (ready to
send), throws, consumes one batch from the external user-message generator,
or — when `body.continue_final_message` is set — loops without consuming.
The generator is modelled as `Option (List (List ChatMessage))`: `none` when
no generator was passed, otherwise the batches it will yield (an exhausted
generator is `some []`). -/

inductive DriverError
  | lastMessageFromAssistant
  | noUserMessageProvided
deriving DecidableEq

def isUserOrTool (m : ChatMessage) : Bool :=
  match m.role with
  | .user => true
  | .tool => true
  | _ => false

structure DriverState where
  messages : List ChatMessage
  continueFinalMessage : Bool
  source : Option (List (List ChatMessage))
deriving DecidableEq

inductive EnsureStep
  | send (st : DriverState)
  | fail (e : DriverError)
  | again (st : DriverState)
deriving DecidableEq

/-- The branch taken when the last message is not user/tool-authored:
`if (!userMessages) throw`; then, only when `continue_final_message` is
unset, await the next batch (throwing if the generator is done) and append
it (`src/main.ts:103-110`). -/
def ensureLastPull (st : DriverState) : EnsureStep :=
  match st.source with
  | none => .fail .lastMessageFromAssistant
  | some batches =>
    if st.continueFinalMessage then .again st
    else
      match batches with
      | [] => .fail .noUserMessageProvided
      | b :: rest => .again { st with messages := st.messages ++ b, source := some rest }

/-- One iteration of the `while (true)` loop (`src/main.ts:99-111`). -/
def ensureLastStep (st : DriverState) : EnsureStep :=
  match st.messages.getLast? with
  | some m => if isUserOrTool m then .send st else ensureLastPull st
  | none => ensureLastPull st

/-- Fueled iteration of the loop; `none` models divergence. -/
def ensureLastIter : Nat → DriverState → Option (Except DriverError DriverState)
  | 0, _ => none
  | n + 1, st =>
    match ensureLastStep st with
    | .send s => some (.ok s)
    | .fail e => some (.error e)
    | .again s => ensureLastIter n s

/-! ## Two-channel session coordinator — `connectStreamService`
(`src/main.ts:169-283`)

The coordinator state collects the mutable pieces of the closure: the
`processing` and `printedName` flags, whether the driver's async loop is
still running (it returns for good from its `catch`), the pending batches of
`userMessageQueue`, and the text submitted to the outbound queue `q`.
Events model the reactions of the source: a completed input line
(`rl.on('line', ...)`, 267-280), the driver loop's `catch` (261-264), a
final assistant message without tool calls (244-247), and the driver pulling
a queued batch (the generator feeding `streamChatCompletion`, 226). -/

structure CoordState where
  processing : Bool
  printedName : Bool
  driverAlive : Bool
  queued : List (List ChatMessage)
  output : List String
deriving DecidableEq

inductive CoordEvent
  | line (s : String)
  | driverError (e : String)
  | turnDone
  | driverTake
deriving DecidableEq

/-- The visible restart notice
(`q.submit(Buffer.from('\n\nChat error (restarting):\n\n' + e + '\n\n'))`). -/
def restartNotice (e : String) : String :=
  "\n\nChat error (restarting):\n\n" ++ e ++ "\n\n"

def promptText : String := "> "

def coordStep (st : CoordState) : CoordEvent → CoordState
  | .line s =>
    if strIsEmpty s then { st with output := st.output ++ [promptText] }
    else if st.processing then st
    else { st with
      processing := true,
      printedName := false,
      queued := st.queued ++ [[ChatMessage.userText s]] }
  | .driverError e =>
    { st with output := st.output ++ [restartNotice e], driverAlive := false }
  | .turnDone => { st with processing := false, output := st.output ++ [promptText] }
  | .driverTake =>
    if st.driverAlive then { st with queued := st.queued.tail } else st

/-! ## Concrete fixtures used by witnesses and counterexamples -/

/-- A `JSON.parse` oracle that always throws (no resource text in the
fixtures is valid JSON). -/
def noJson : String → Option Jsonv := fun _ => none

/-- A deterministic stand-in for the `random-words` token generator. -/
def mintW : Nat → String := fun n => String.mk (List.replicate (n + 1) 'w')

def echoTool : ChatTool :=
  ⟨"function", ⟨"echo", "Echoes text.",
    some ⟨[("text", ⟨"string", none, none⟩)], ["text"], false⟩⟩⟩

def echoProvider : LLMTools :=
  ⟨1, .ok [echoTool], fun _ _ _ => .ok ⟨[.text "done"], none, false⟩⟩

def throwingProvider : LLMTools :=
  ⟨2, .ok [⟨"function", ⟨"boom", "Always throws.", none⟩⟩],
    fun _ _ _ => .error "Error: provider exploded"⟩

def jsonUriSchema : ParamSchema := ⟨"string", some "uri", some "application/json"⟩

def plainUriSchema : ParamSchema := ⟨"string", some "uri", none⟩

def jsonUriTool : ChatTool :=
  ⟨"function", ⟨"use_data", "Reads a chat blob.",
    some ⟨[("u", jsonUriSchema)], ["u"], false⟩⟩⟩

def jsonUriProvider : LLMTools :=
  ⟨3, .ok [jsonUriTool], fun _ _ _ => .ok ⟨[.text "ok"], none, false⟩⟩

/-- A history whose single result stores resource token `tok` with mime type
`image/png`. -/
def pngHistory : List CallToolResult :=
  [⟨[], some ⟨[], [], [⟨"tok", "PNGDATA", "image/png"⟩]⟩, false⟩]

/-- A history where token `tok` occurs in two image entries; the later entry
stores `second`. -/
def twoMatchHistory : List CallToolResult :=
  [⟨[], some ⟨[⟨"tok", "first", "100%", "auto"⟩], [], []⟩, false⟩,
   ⟨[], some ⟨[⟨"tok", "second", "100%", "auto"⟩], [], []⟩, false⟩]

/-! ## Claim C5 -/

/-- C5: blob token resolution scans the entire Tool History chronologically
without stopping at the first match — the result is the value of the LAST
matching metadata entry in scan order (and `none`, i.e. `undefined`, when no
entry matches); and a token that resolves to `undefined` leaves the original
token-bearing argument untouched (the parameter loop moves on without
substituting). -/
theorem c5_last_match_wins :
    (∀ (jsonParse : String → Option Jsonv) (token : String)
        (hist : List CallToolResult),
      findChatBlob jsonParse token hist none
        = .ok ((hist.flatMap (matchingValues jsonParse token)).getLast?))
    ∧ (∀ (jsonParse : String → Option Jsonv) (hist : List CallToolResult)
        (p : String) (schema : ParamSchema) (value : String)
        (rest : List (String × ParamSchema)) (args : Args)
        (urls : List (String × String)),
      schema.type = "string" → schema.format = some "uri" →
      recordGet args p = some (.str value) → strStartsWith value "chat://" = true →
      findChatBlob jsonParse (urlHost value) hist schema.mimeType = .ok none →
      resolveArgs jsonParse hist ((p, schema) :: rest) ⟨args, urls⟩
        = resolveArgs jsonParse hist rest ⟨args, urls⟩) := by
  constructor
  · intro jsonParse token hist
    unfold findChatBlob
    rw [findChatBlobGo_none, overr_none_right]
  · intro jsonParse hist p schema value rest args urls htype hfmt harg hpre hnone
    have hcond : (schema.type == "string" && schema.format == some "uri") = true := by
      rw [htype, hfmt]; rfl
    simp only [resolveArgs, harg, hcond, if_true, hpre, hnone]

/-- Witness for C5 at concrete inputs: the token `tok` matched by two image
entries resolves to the later entry's `src`, and an unmatched token leaves
the argument untouched. -/
theorem c5_witness :
    findChatBlob noJson "tok" twoMatchHistory none = .ok (some (.str "second"))
    ∧ resolveArgs noJson [] [("u", plainUriSchema)]
        ⟨[("u", .str "chat://zzz")], []⟩ = ⟨[("u", .str "chat://zzz")], []⟩ := by
  constructor
  · exact (c5_last_match_wins.1 noJson "tok" twoMatchHistory).trans (by rfl)
  · exact (c5_last_match_wins.2 noJson [] "u" plainUriSchema "chat://zzz" []
      [("u", .str "chat://zzz")] [] rfl rfl rfl rfl rfl).trans rfl

/-! ## Claim C3 -/

/-- C3 counterexample: resolving blob token `tok` (stored with mime type
`image/png`) against a declared required mime type `application/json` does
throw the mime-mismatch error, but the error is swallowed by the empty
`catch` at the dispatch boundary (`src/tool-calls.ts:163-164`): the tool
call does NOT fail — it proceeds and the provider is invoked with the
original unresolved `chat://tok` argument, the turn succeeding.  This
refutes the claim that the failure is fatal for that tool call. -/
theorem c3_counterexample :
    findChatBlob noJson "tok" pngHistory (some "application/json")
      = .error (mimeMismatchMessage "application/json" "image/png")
    ∧ handleToolCalls noJson mintW (prepareTools [jsonUriProvider])
        ⟨"", some [⟨"call_3", "function", ⟨"use_data", [("u", .str "chat://tok")]⟩⟩], none⟩
        pngHistory false none
      = .ok ([⟨⟨"call_3", "function", ⟨"use_data", [("u", .str "chat://tok")]⟩⟩,
              ⟨[.text "ok"], none, false⟩,
              [.tool "call_3" "ok"]⟩],
             ⟨"", some [⟨"call_3", "function", ⟨"use_data", [("u", .str "chat://tok")]⟩⟩], none⟩) := by
  exact ⟨rfl, by decide⟩

/-- C3 amended: when resolution of a `chat://` token fails with the
mime-mismatch error, no resolved value is substituted — but the error is
caught by the dispatcher's empty `catch`, which abandons the parameter loop
and leaves the arguments exactly as they were, so the tool call is silently
continued with the unresolved token (it does not fail) and the session
survives. -/
theorem c3_amended :
    ∀ (jsonParse : String → Option Jsonv) (hist : List CallToolResult)
      (p : String) (schema : ParamSchema) (value : String)
      (rest : List (String × ParamSchema)) (args : Args)
      (urls : List (String × String)) (e : String),
      schema.type = "string" → schema.format = some "uri" →
      recordGet args p = some (.str value) → strStartsWith value "chat://" = true →
      findChatBlob jsonParse (urlHost value) hist schema.mimeType = .error e →
      resolveArgs jsonParse hist ((p, schema) :: rest) ⟨args, urls⟩ = ⟨args, urls⟩ := by
  intro jsonParse hist p schema value rest args urls e htype hfmt harg hpre herr
  have hcond : (schema.type == "string" && schema.format == some "uri") = true := by
    rw [htype, hfmt]; rfl
  simp only [resolveArgs, harg, hcond, if_true, hpre, herr]

/-- Witness for C3 amended at the concrete mismatch fixture. -/
theorem c3_amended_witness :
    resolveArgs noJson pngHistory [("u", jsonUriSchema)]
      ⟨[("u", .str "chat://tok")], []⟩ = ⟨[("u", .str "chat://tok")], []⟩ :=
  c3_amended noJson pngHistory "u" jsonUriSchema "chat://tok" []
    [("u", .str "chat://tok")] [] (mimeMismatchMessage "application/json" "image/png")
    rfl rfl rfl (by decide) (by decide)

/-! ## Claim C6 -/

/-- The metadata entry minted for an inlining-disabled image part. -/
def mintedImageEntry (mint : Nat → String) (fresh : Nat) (mimeType data : String) :
    ImageEntry :=
  ⟨mint fresh, dataUrl mimeType data, "100%", "auto"⟩

/-- C6: token round-trip.  When an Image content part is adapted with the
image capability off, a blob token is minted and recorded in the result's
`images` metadata with the data URL `data:<mimeType>;base64,<data>` as its
`src`; resolving that token against any history containing the enriched
result — provided no later entry in scan order reuses the token — returns
exactly that stored data URL. -/
theorem c6_token_round_trip
    (jsonParse : String → Option Jsonv) (mint : Nat → String)
    (caps : Option Capabilities) (tcId : String) (tool : Option ChatTool)
    (urls : List (String × String)) (mimeType data : String)
    (r : CallToolResult) (fresh : Nat) (msgs : List ChatMessage)
    (r' : CallToolResult) (fresh' : Nat) (h1 h2 : List CallToolResult)
    (hcap : capImage caps = false)
    (hcontent : r.content = [.image mimeType data])
    (hbuild : buildToolMessages mint caps tcId tool urls r fresh = .ok (msgs, r', fresh'))
    (hh2 : ∀ m ∈ h2, matchingValues jsonParse (mint fresh) m = [])
    (haud : (r.metaD).audio.filter (fun e => e.token == mint fresh) = [])
    (hres : (r.metaD).resources.filter (fun e => e.token == mint fresh) = []) :
    findChatBlob jsonParse (mint fresh) (h1 ++ r' :: h2) none
      = .ok (some (.str (dataUrl mimeType data))) := by
  have hr' : r' = { r with
      meta := pushImageEntry r.meta (mintedImageEntry mint fresh mimeType data) } := by
    simp only [buildToolMessages, hcontent, adaptAll, adaptContent, hcap,
      Bool.false_eq_true, if_false, Except.ok.injEq, Prod.mk.injEq,
      mintedImageEntry] at hbuild ⊢
    exact hbuild.2.1.symm
  subst hr'
  have hmv : matchingValues jsonParse (mint fresh)
      { r with meta := pushImageEntry r.meta (mintedImageEntry mint fresh mimeType data) }
      = (((r.metaD).images.filter (fun e => e.token == mint fresh)).map
          (fun e => Jsonv.str e.src)) ++ [Jsonv.str (dataUrl mimeType data)] := by
    simp only [matchingValues, pushImageEntry, mintedImageEntry,
      CallToolResult.metaD] at haud hres ⊢
    rw [List.filter_append, List.filter_cons]
    rw [if_pos (beq_self_eq_true (mint fresh))]
    rw [List.filter_nil, List.map_append, haud, hres]
    simp
  unfold findChatBlob
  rw [findChatBlobGo_none, overr_none_right]
  rw [List.flatMap_append, List.flatMap_cons, hmv,
    flatMap_eq_nil_of_forall _ _ hh2, List.append_nil]
  rw [getLast?_append]
  rw [List.getLast?_concat]
  rfl

/-- The enriched image result minted by the C6 witness run. -/
def c6Result : CallToolResult := ⟨[.image "image/png" "QUJD"], none, false⟩

def c6Minted : CallToolResult :=
  ⟨[.image "image/png" "QUJD"],
   some ⟨[⟨"w", "data:image/png;base64,QUJD", "100%", "auto"⟩], [], []⟩, false⟩

/-- Witness for C6: a concrete image result, adapted without the image
capability, whose minted token `w` round-trips to the stored data URL. -/
theorem c6_witness :
    findChatBlob noJson "w" ([] ++ c6Minted :: []) none
      = .ok (some (.str (dataUrl "image/png" "QUJD"))) :=
  c6_token_round_trip noJson mintW none "call_6" none [] "image/png" "QUJD"
    c6Result 0 [ChatMessage.tool "call_6" (imageTokenNotice "w")] c6Minted 1 [] []
    rfl rfl (by decide) (fun m hm => absurd hm (List.not_mem_nil m)) rfl rfl

/-! ## Claim C1 -/

/-- C1 counterexample: dispatching a tool call whose functionName is not in
the aggregated registry does NOT yield an `isError` ToolResult containing
"Unknown tool" — `toolCall` throws `Error('Tool [object Object] not
found.')` and `handleToolCalls` has no catch around the provider
invocation, so the exception propagates out of the turn loop; likewise a
provider that throws aborts `handleToolCalls` with the provider's error
instead of an `isError` text result. -/
theorem c1_counterexample :
    handleToolCalls noJson mintW (prepareTools [echoProvider, throwingProvider])
      ⟨"", some [⟨"call_1", "function", ⟨"does-not-exist", []⟩⟩], none⟩
      [] false none
      = .error toolNotFoundMessage
    ∧ handleToolCalls noJson mintW (prepareTools [echoProvider, throwingProvider])
      ⟨"", some [⟨"call_2", "function", ⟨"boom", []⟩⟩], none⟩
      [] false none
      = .error "Error: provider exploded" := by
  exact ⟨by decide, by decide⟩

/-- C1 amended: a tool call whose functionName has no registry entry makes
`toolCall` throw `Error('Tool [object Object] not found.')` (no `isError`
ToolResult, no "Unknown tool" text at the dispatch level); an error thrown
by the owning provider propagates out of `toolCall` uncaught; and any
per-call error aborts `handleToolCalls` — the whole turn — rather than
being converted into conversational content (it is finally caught only by
the session coordinator's restart handler). -/
theorem c1_amended :
    (∀ (pt : PreparedTools) (tc : ToolCall),
      recordGet pt.map tc.fn.name = none →
      toolCall pt tc = .error toolNotFoundMessage)
    ∧ (∀ (pt : PreparedTools) (tc : ToolCall) (tool : LLMTools) (orig e : String),
        recordGet pt.map tc.fn.name = some tool →
        recordGet pt.originalNames tc.fn.name = some orig →
        orig ≠ TimeToolFunctionName →
        tool.callLLMTool tc.id orig tc.fn.arguments = .error e →
        toolCall pt tc = .error e)
    ∧ (∀ (jsonParse : String → Option Jsonv) (mint : Nat → String)
        (pt : PreparedTools) (hist : List CallToolResult) (flag : Bool)
        (caps : Option Capabilities) (tc : ToolCall) (rest : List ToolCall)
        (fresh : Nat) (msg : AssistantTurn) (e : String),
        processCall jsonParse mint pt hist caps fresh tc = .error e →
        handleToolCallsGo jsonParse mint pt hist flag caps (tc :: rest) fresh msg
          = .error e) := by
  refine ⟨?_, ?_, ?_⟩
  · intro pt tc h
    unfold toolCall
    rw [h]
  · intro pt tc tool orig e h1 h2 h3 h4
    unfold toolCall
    rw [h1, h2]
    have horig : (orig == TimeToolFunctionName) = false := beq_eq_false_iff_ne.mpr h3
    show (if (orig == TimeToolFunctionName) = true
        then Except.ok (ToolResponse.timeString callGetTimeTool)
        else (tool.callLLMTool tc.id orig tc.fn.arguments).map ToolResponse.result)
      = .error e
    rw [if_neg (by rw [horig]; exact Bool.false_ne_true), h4]
    rfl
  · intro jsonParse mint pt hist flag caps tc rest fresh msg e h
    simp only [handleToolCallsGo, h]

/-- Witness for C1 amended at concrete inputs: the unknown name, a throwing
provider, and the propagation through `handleToolCallsGo`. -/
theorem c1_amended_witness :
    toolCall (prepareTools [echoProvider, throwingProvider])
      ⟨"call_1", "function", ⟨"does-not-exist", []⟩⟩ = .error toolNotFoundMessage
    ∧ toolCall (prepareTools [echoProvider, throwingProvider])
      ⟨"call_2", "function", ⟨"boom", []⟩⟩ = .error "Error: provider exploded"
    ∧ handleToolCallsGo noJson mintW (prepareTools [echoProvider, throwingProvider])
      [] false none [⟨"call_1", "function", ⟨"does-not-exist", []⟩⟩] 0
      ⟨"", none, none⟩ = .error toolNotFoundMessage := by
  refine ⟨?_, ?_, ?_⟩
  · exact c1_amended.1 (prepareTools [echoProvider, throwingProvider])
      ⟨"call_1", "function", ⟨"does-not-exist", []⟩⟩ (by rfl)
  · exact c1_amended.2.1 (prepareTools [echoProvider, throwingProvider])
      ⟨"call_2", "function", ⟨"boom", []⟩⟩ throwingProvider "boom"
      "Error: provider exploded" (by rfl) (by rfl) (by decide) (by rfl)
  · exact c1_amended.2.2 noJson mintW (prepareTools [echoProvider, throwingProvider])
      [] false none ⟨"call_1", "function", ⟨"does-not-exist", []⟩⟩ [] 0
      ⟨"", none, none⟩ toolNotFoundMessage (by decide)

/-! ## Claim C2 -/

/-- The tool-call id carried by a tool-role message. -/
def toolMsgId : ChatMessage → Option String
  | .tool tid _ => some tid
  | _ => none

/-- The side-effect messages emitted by the adapter for one content part are
never tool-role messages (only assistant acknowledgements and synthetic user
messages are appended to `extra`). -/
theorem adaptContent_toolMsgs (mint : Nat → String) (caps : Option Capabilities)
    (tcId : String) (tool : Option ChatTool) (urls : List (String × String))
    (st st' : AdaptState) (c : ToolContent)
    (h : adaptContent mint caps tcId tool urls st c = .ok st') :
    st'.extra.filterMap toolMsgId = st.extra.filterMap toolMsgId := by
  cases c with
  | text t =>
    simp only [adaptContent, Except.ok.injEq] at h
    subst h
    rfl
  | image mt dt =>
    simp only [adaptContent] at h
    by_cases hc : capImage caps = true
    · rw [if_pos hc] at h
      simp only [Except.ok.injEq] at h
      subst h
      simp [List.filterMap_append, toolMsgId]
    · rw [if_neg hc] at h
      simp only [Except.ok.injEq] at h
      subst h
      rfl
  | audio mt dt =>
    simp only [adaptContent] at h
    by_cases hc : capAudio caps = true
    · rw [if_pos hc] at h
      simp only [Except.ok.injEq] at h
      subst h
      simp [List.filterMap_append, toolMsgId]
    · rw [if_neg hc] at h
      simp only [Except.ok.injEq] at h
      subst h
      rfl
  | resource mt tx mp =>
    cases mp with
    | none =>
      simp only [adaptContent, Except.ok.injEq] at h
      subst h
      rfl
    | some p =>
      cases tool with
      | none =>
        simp only [adaptContent] at h
        exact Except.noConfusion h
      | some t =>
        simp only [adaptContent] at h
        split at h
        · split at h
          · simp only [Except.ok.injEq] at h
            subst h
            rfl
          · simp only [Except.ok.injEq] at h
            subst h
            rfl
        · simp only [Except.ok.injEq] at h
          subst h
          rfl
  | other ct =>
    simp only [adaptContent] at h
    exact Except.noConfusion h

theorem adaptAll_toolMsgs (mint : Nat → String) (caps : Option Capabilities)
    (tcId : String) (tool : Option ChatTool) (urls : List (String × String)) :
    ∀ (content : List ToolContent) (st st' : AdaptState),
      adaptAll mint caps tcId tool urls st content = .ok st' →
      st'.extra.filterMap toolMsgId = st.extra.filterMap toolMsgId := by
  intro content
  induction content with
  | nil =>
    intro st st' h
    simp only [adaptAll, Except.ok.injEq] at h
    subst h
    rfl
  | cons c rest ih =>
    intro st st' h
    simp only [adaptAll] at h
    cases hc : adaptContent mint caps tcId tool urls st c with
    | error e => rw [hc] at h; exact Except.noConfusion h
    | ok st1 =>
      rw [hc] at h
      exact (ih st1 st' h).trans (adaptContent_toolMsgs mint caps tcId tool urls st st1 c hc)

/-- The message batch assembled for one tool call contains exactly one
tool-role message — the leading one, carrying the call's id. -/
theorem buildToolMessages_toolMsgs (mint : Nat → String) (caps : Option Capabilities)
    (tcId : String) (tool : Option ChatTool) (urls : List (String × String))
    (r : CallToolResult) (fresh : Nat) (msgs : List ChatMessage)
    (r' : CallToolResult) (f' : Nat)
    (h : buildToolMessages mint caps tcId tool urls r fresh = .ok (msgs, r', f')) :
    msgs.filterMap toolMsgId = [tcId] := by
  unfold buildToolMessages at h
  cases ha : adaptAll mint caps tcId tool urls ⟨[], [], r.meta, fresh⟩ r.content with
  | error e => rw [ha] at h; exact Except.noConfusion h
  | ok st =>
    rw [ha] at h
    simp only [Except.ok.injEq, Prod.mk.injEq] at h
    obtain ⟨hm, -, -⟩ := h
    subst hm
    have hextra := adaptAll_toolMsgs mint caps tcId tool urls r.content
      ⟨[], [], r.meta, fresh⟩ st ha
    simp only [List.filterMap_cons, toolMsgId, hextra, List.filterMap_nil]

/-- Dispatch of one call produces a `ToolCallData` whose tool call keeps the
original id and whose message batch carries exactly that id as its only
tool-role message. -/
theorem dispatchOutcome_spec
    (mint : Nat → String) (pt : PreparedTools) (caps : Option Capabilities)
    (tool : Option ChatTool) (urls : List (String × String)) (fresh : Nat)
    (tc' : ToolCall) (d : ToolCallData) (f2 : Nat)
    (h : dispatchOutcome mint pt caps tool urls fresh tc' = .ok (d, f2)) :
    d.toolCall.id = tc'.id ∧ d.messages.filterMap toolMsgId = [tc'.id] := by
  unfold dispatchOutcome at h
  cases htc : toolCall pt tc' with
  | error e => rw [htc] at h; exact Except.noConfusion h
  | ok resp =>
    rw [htc] at h
    cases resp with
    | timeString s => exact Except.noConfusion h
    | result r =>
      have h' : dispatchAssemble tc'
          (buildToolMessages mint caps tc'.id tool urls r fresh) = .ok (d, f2) := h
      cases hb : buildToolMessages mint caps tc'.id tool urls r fresh with
      | error e =>
        rw [hb] at h'
        exact Except.noConfusion h'
      | ok out =>
        obtain ⟨msgs, r2, f3⟩ := out
        rw [hb] at h'
        simp only [dispatchAssemble, Except.ok.injEq, Prod.mk.injEq] at h'
        obtain ⟨hd, -⟩ := h'
        subst hd
        exact ⟨rfl, buildToolMessages_toolMsgs mint caps tc'.id tool urls r fresh msgs r2 f3 hb⟩

theorem processCall_spec (jsonParse : String → Option Jsonv) (mint : Nat → String)
    (pt : PreparedTools) (hist : List CallToolResult)
    (caps : Option Capabilities) (fresh : Nat) (tc : ToolCall)
    (d : ToolCallData) (f2 : Nat)
    (h : processCall jsonParse mint pt hist caps fresh tc = .ok (d, f2)) :
    d.toolCall.id = tc.id ∧ d.messages.filterMap toolMsgId = [tc.id] := by
  simp only [processCall] at h
  have hs := dispatchOutcome_spec mint pt caps _ _ fresh _ d f2 h
  exact hs

/-- The sequential dispatch loop preserves call order: the produced
`ToolCallData` list and the tool-role messages of the flattened batches both
list the call ids in exactly the order of the assistant's tool calls. -/
theorem handleToolCallsGo_spec (jsonParse : String → Option Jsonv)
    (mint : Nat → String) (pt : PreparedTools) (hist : List CallToolResult)
    (flag : Bool) (caps : Option Capabilities) :
    ∀ (tcs : List ToolCall) (fresh : Nat) (msg : AssistantTurn)
      (ds : List ToolCallData) (f : Nat) (m : AssistantTurn),
      handleToolCallsGo jsonParse mint pt hist flag caps tcs fresh msg = .ok (ds, f, m) →
      ds.map (fun d => d.toolCall.id) = tcs.map (fun c => c.id)
      ∧ (ds.flatMap (fun d => d.messages)).filterMap toolMsgId
          = tcs.map (fun c => c.id) := by
  intro tcs
  induction tcs with
  | nil =>
    intro fresh msg ds f m h
    simp only [handleToolCallsGo, Except.ok.injEq, Prod.mk.injEq] at h
    obtain ⟨h1, -, -⟩ := h
    subst h1
    exact ⟨rfl, rfl⟩
  | cons tc rest ih =>
    intro fresh msg ds f m h
    simp only [handleToolCallsGo] at h
    cases hp : processCall jsonParse mint pt hist caps fresh tc with
    | error e => rw [hp] at h; exact Except.noConfusion h
    | ok out =>
      obtain ⟨d, fresh'⟩ := out
      rw [hp] at h
      have h2 : goAssemble d (handleToolCallsGo jsonParse mint pt hist flag caps rest fresh'
          (if flag then { msg with functionCall := some d.toolCall.fn } else msg))
          = .ok (ds, f, m) := h
      cases hrest : handleToolCallsGo jsonParse mint pt hist flag caps rest fresh'
          (if flag then { msg with functionCall := some d.toolCall.fn } else msg) with
      | error e => rw [hrest] at h2; exact Except.noConfusion h2
      | ok out2 =>
        obtain ⟨ds0, f0, m0⟩ := out2
        rw [hrest] at h2
        simp only [goAssemble, Except.ok.injEq, Prod.mk.injEq] at h2
        obtain ⟨hds, -, -⟩ := h2
        subst hds
        obtain ⟨pid, pmsg⟩ := processCall_spec jsonParse mint pt hist caps fresh tc d fresh' hp
        obtain ⟨rid, rmsg⟩ := ih fresh' _ ds0 f0 m0 hrest
        constructor
        · rw [List.map_cons, List.map_cons, pid, rid]
        · rw [List.flatMap_cons, List.filterMap_append, pmsg, rmsg, List.map_cons]
          rfl

/-- C2: for an assistant turn with tool calls `[c1..cN]`, `handleToolCalls`
dispatches them strictly sequentially in list order (the loop awaits each
dispatch before starting the next — rendered here as the sequential
recursion) and the resulting batches, concatenated in the order they are
appended to the shared history (`main.ts:254-258` submits them FIFO),
contain the tool-role messages with ids exactly `[c1.id, .., cN.id]`. -/
theorem c2_tool_messages_in_call_order (jsonParse : String → Option Jsonv)
    (mint : Nat → String) (pt : PreparedTools) (msg : AssistantTurn)
    (hist : List CallToolResult) (flag : Bool) (caps : Option Capabilities)
    (calls : List ToolCall) (ds : List ToolCallData) (m' : AssistantTurn)
    (hcalls : msg.toolCalls = some calls)
    (h : handleToolCalls jsonParse mint pt msg hist flag caps = .ok (ds, m')) :
    ds.map (fun d => d.toolCall.id) = calls.map (fun c => c.id)
    ∧ (ds.flatMap (fun d => d.messages)).filterMap toolMsgId
        = calls.map (fun c => c.id) := by
  unfold handleToolCalls at h
  rw [hcalls] at h
  have h2 : finishHandle flag
      (handleToolCallsGo jsonParse mint pt hist flag caps calls 0 msg)
      = .ok (ds, m') := h
  cases hgo : handleToolCallsGo jsonParse mint pt hist flag caps calls 0 msg with
  | error e => rw [hgo] at h2; exact Except.noConfusion h2
  | ok t =>
    obtain ⟨ds0, f0, m0⟩ := t
    rw [hgo] at h2
    simp only [finishHandle, Except.ok.injEq, Prod.mk.injEq] at h2
    obtain ⟨hds, -⟩ := h2
    subst hds
    exact handleToolCallsGo_spec jsonParse mint pt hist flag caps calls 0 msg ds0 f0 m0 hgo

/-- An assistant turn with two `echo` calls, used by the C2 witness. -/
def c2Msg : AssistantTurn :=
  ⟨"", some [⟨"c1", "function", ⟨"echo", [("text", .str "a")]⟩⟩,
             ⟨"c2", "function", ⟨"echo", [("text", .str "b")]⟩⟩], none⟩

def c2Data : List ToolCallData :=
  [⟨⟨"c1", "function", ⟨"echo", [("text", .str "a")]⟩⟩,
    ⟨[.text "done"], none, false⟩, [.tool "c1" "done"]⟩,
   ⟨⟨"c2", "function", ⟨"echo", [("text", .str "b")]⟩⟩,
    ⟨[.text "done"], none, false⟩, [.tool "c2" "done"]⟩]

/-- Witness for C2 on a concrete two-call turn. -/
theorem c2_witness :
    c2Data.map (fun d => d.toolCall.id) = ["c1", "c2"]
    ∧ (c2Data.flatMap (fun d => d.messages)).filterMap toolMsgId = ["c1", "c2"] :=
  c2_tool_messages_in_call_order noJson mintW (prepareTools [echoProvider]) c2Msg
    [] false none
    [⟨"c1", "function", ⟨"echo", [("text", .str "a")]⟩⟩,
     ⟨"c2", "function", ⟨"echo", [("text", .str "b")]⟩⟩]
    c2Data c2Msg rfl (by decide)

/-! ## Claim C8 -/

/-- The dispatch loop with the assistant-message bookkeeping stripped:
only the `ToolCallData` list and the token counter. -/
def processAll (jsonParse : String → Option Jsonv) (mint : Nat → String)
    (pt : PreparedTools) (hist : List CallToolResult)
    (caps : Option Capabilities) : List ToolCall → Nat →
    Except String (List ToolCallData × Nat)
  | [], fresh => .ok ([], fresh)
  | tc :: rest, fresh =>
    match processCall jsonParse mint pt hist caps fresh tc with
    | .error e => .error e
    | .ok (d, fresh') =>
      (processAll jsonParse mint pt hist caps rest fresh').map
        (fun p => (d :: p.1, p.2))

theorem exceptMap_map {ε α β γ : Type} (f : β → γ) (g : α → β) (x : Except ε α) :
    (x.map g).map f = x.map (fun a => f (g a)) := by
  cases x <;> rfl

/-- The legacy-function-call flag and the threaded assistant message have no
effect on dispatch: the loop's data output equals `processAll`. -/
theorem handleToolCallsGo_data (jsonParse : String → Option Jsonv)
    (mint : Nat → String) (pt : PreparedTools) (hist : List CallToolResult)
    (caps : Option Capabilities) :
    ∀ (tcs : List ToolCall) (fresh : Nat) (flag : Bool) (msg : AssistantTurn),
      (handleToolCallsGo jsonParse mint pt hist flag caps tcs fresh msg).map
          (fun t => (t.1, t.2.1))
        = processAll jsonParse mint pt hist caps tcs fresh := by
  intro tcs
  induction tcs with
  | nil => intro fresh flag msg; rfl
  | cons tc rest ih =>
    intro fresh flag msg
    simp only [handleToolCallsGo, processAll]
    cases hp : processCall jsonParse mint pt hist caps fresh tc with
    | error e => rfl
    | ok out =>
      obtain ⟨d, fresh'⟩ := out
      have key := ih fresh' flag
        (if flag then { msg with functionCall := some d.toolCall.fn } else msg)
      show (goAssemble d (handleToolCallsGo jsonParse mint pt hist flag caps rest fresh'
          (if flag then { msg with functionCall := some d.toolCall.fn } else msg))).map
            (fun t => (t.1, t.2.1))
        = (processAll jsonParse mint pt hist caps rest fresh').map
            (fun p => (d :: p.1, p.2))
      cases hgo : handleToolCallsGo jsonParse mint pt hist flag caps rest fresh'
          (if flag then { msg with functionCall := some d.toolCall.fn } else msg) with
      | error e =>
        rw [hgo] at key
        rw [← key]
        rfl
      | ok out2 =>
        obtain ⟨ds0, f0, m0⟩ := out2
        rw [hgo] at key
        rw [← key]
        rfl

theorem finishHandle_map_fst (flag : Bool)
    (x : Except String (List ToolCallData × Nat × AssistantTurn)) :
    (finishHandle flag x).map Prod.fst = x.map (fun t => t.1) := by
  cases x with
  | error e => rfl
  | ok t => obtain ⟨ds, f, m⟩ := t; rfl

/-- C8 counterexample: with legacy function-call mode enabled, after
handling a two-call turn the assistant message's `tool_calls` field is
removed AND `function_call` is `null` — not the first tool call of the turn:
the per-iteration mirror writes the LAST call and the unconditional
`message.function_call = null` after the loop (`src/tool-calls.ts:309`)
erases even that. -/
theorem c8_counterexample :
    handleToolCalls noJson mintW (prepareTools [echoProvider]) c2Msg [] true none
      = .ok (c2Data, ⟨"", none, none⟩) := by
  decide

/-- C8 amended: when legacy function-call compatibility mode is enabled,
after handling a turn's tool calls the assistant message has its modern
`tool_calls` field removed — but the deprecated `function_call` field is
`null` on the returned message (the per-iteration mirror is overwritten with
the last call and then unconditionally reset to `null` after the loop), so
no tool call is mirrored; dispatch semantics are unchanged by the flag. -/
theorem c8_amended :
    (∀ (jsonParse : String → Option Jsonv) (mint : Nat → String)
        (pt : PreparedTools) (msg : AssistantTurn) (hist : List CallToolResult)
        (caps : Option Capabilities) (ds : List ToolCallData) (m' : AssistantTurn),
      handleToolCalls jsonParse mint pt msg hist true caps = .ok (ds, m') →
      m'.toolCalls = none ∧ m'.functionCall = none)
    ∧ (∀ (jsonParse : String → Option Jsonv) (mint : Nat → String)
        (pt : PreparedTools) (msg : AssistantTurn) (hist : List CallToolResult)
        (caps : Option Capabilities),
      (handleToolCalls jsonParse mint pt msg hist true caps).map Prod.fst
        = (handleToolCalls jsonParse mint pt msg hist false caps).map Prod.fst) := by
  constructor
  · intro jsonParse mint pt msg hist caps ds m' h
    unfold handleToolCalls at h
    cases hcalls : msg.toolCalls with
    | none => rw [hcalls] at h; exact Except.noConfusion h
    | some tcs =>
      rw [hcalls] at h
      have h2 : finishHandle true
          (handleToolCallsGo jsonParse mint pt hist true caps tcs 0 msg)
          = .ok (ds, m') := h
      cases hgo : handleToolCallsGo jsonParse mint pt hist true caps tcs 0 msg with
      | error e => rw [hgo] at h2; exact Except.noConfusion h2
      | ok t =>
        obtain ⟨ds0, f0, m0⟩ := t
        rw [hgo] at h2
        simp only [finishHandle, if_pos, Except.ok.injEq, Prod.mk.injEq] at h2
        obtain ⟨-, hm⟩ := h2
        subst hm
        exact ⟨rfl, rfl⟩
  · intro jsonParse mint pt msg hist caps
    unfold handleToolCalls
    cases hcalls : msg.toolCalls with
    | none => rfl
    | some tcs =>
      show (finishHandle true
          (handleToolCallsGo jsonParse mint pt hist true caps tcs 0 msg)).map Prod.fst
        = (finishHandle false
          (handleToolCallsGo jsonParse mint pt hist false caps tcs 0 msg)).map Prod.fst
      rw [finishHandle_map_fst, finishHandle_map_fst]
      have e1 := handleToolCallsGo_data jsonParse mint pt hist caps tcs 0 true msg
      have e2 := handleToolCallsGo_data jsonParse mint pt hist caps tcs 0 false msg
      have m1 := congrArg (Except.map Prod.fst) e1
      have m2 := congrArg (Except.map Prod.fst) e2
      rw [exceptMap_map] at m1 m2
      exact m1.trans m2.symm

/-- Witness for C8 amended on the concrete two-call legacy-mode run. -/
theorem c8_amended_witness :
    (⟨"", none, none⟩ : AssistantTurn).toolCalls = none
    ∧ (⟨"", none, none⟩ : AssistantTurn).functionCall = none :=
  c8_amended.1 noJson mintW (prepareTools [echoProvider]) c2Msg [] none
    c2Data ⟨"", none, none⟩ (by decide)

/-! ## Claim C4 -/

/-- The metadata entry minted for an audio part (both capability branches). -/
def mintedAudioEntry (mint : Nat → String) (fresh : Nat) (mimeType data : String) :
    AudioEntry :=
  ⟨mint fresh, dataUrl mimeType data⟩

/-- C4 counterexample: an Audio content part with `capabilities.audio = true`
does NOT carry the media inline as a data URL and DOES mint a blob token:
the adapter emits three messages, but the synthetic user message only
references the freshly minted `chat://` token, which is also recorded in the
result's `audio` metadata (`src/tool-calls.ts:232-254` — the code comments
that OpenAI has no audio content part type yet). -/
theorem c4_counterexample :
    buildToolMessages mintW (some ⟨true, true⟩) "call_9" none []
      ⟨[.audio "audio/mpeg" "QUJD"], none, false⟩ 0
      = .ok ([ChatMessage.tool "call_9" audioInlineNotice,
              ChatMessage.assistant ⟨"Ok.", none, none⟩,
              ChatMessage.userText "Audio file is available at: `chat://w`"],
             ⟨[.audio "audio/mpeg" "QUJD"],
              some ⟨[], [⟨"w", "data:audio/mpeg;base64,QUJD"⟩], []⟩, false⟩, 1) := by
  decide

/-- C4 amended: for a tool result whose content is a single Image part, the
claim holds as stated — capability on: exactly three provider messages (tool
ack, assistant "Ok.", user message with the inline data URL) and no token
minted; capability off: one tool-role message referencing a fresh `chat://`
token recorded under `images`.  For an Audio part the capability-off branch
behaves as claimed, but with `capabilities.audio = true` the adapter still
mints a token: it emits three messages whose synthetic user message carries
the `chat://` token reference (not the inline media), and records the token
under `audio`. -/
theorem c4_amended :
    (∀ (mint : Nat → String) (caps : Option Capabilities) (tcId : String)
        (tool : Option ChatTool) (urls : List (String × String))
        (r : CallToolResult) (fresh : Nat) (mt dt : String),
      r.content = [.image mt dt] → capImage caps = true →
      buildToolMessages mint caps tcId tool urls r fresh
        = .ok ([ChatMessage.tool tcId imageInlineNotice,
                ChatMessage.assistant ⟨"Ok.", none, none⟩,
                ChatMessage.userParts [.text (imageFileHeader tcId),
                  .imageUrl (dataUrl mt dt)]],
               r, fresh))
    ∧ (∀ (mint : Nat → String) (caps : Option Capabilities) (tcId : String)
        (tool : Option ChatTool) (urls : List (String × String))
        (r : CallToolResult) (fresh : Nat) (mt dt : String),
      r.content = [.image mt dt] → capImage caps = false →
      buildToolMessages mint caps tcId tool urls r fresh
        = .ok ([ChatMessage.tool tcId (imageTokenNotice (mint fresh))],
               { r with meta := pushImageEntry r.meta (mintedImageEntry mint fresh mt dt) },
               fresh + 1))
    ∧ (∀ (mint : Nat → String) (caps : Option Capabilities) (tcId : String)
        (tool : Option ChatTool) (urls : List (String × String))
        (r : CallToolResult) (fresh : Nat) (mt dt : String),
      r.content = [.audio mt dt] → capAudio caps = true →
      buildToolMessages mint caps tcId tool urls r fresh
        = .ok ([ChatMessage.tool tcId audioInlineNotice,
                ChatMessage.assistant ⟨"Ok.", none, none⟩,
                ChatMessage.userText (audioAvailableMessage (mint fresh))],
               { r with meta := pushAudioEntry r.meta (mintedAudioEntry mint fresh mt dt) },
               fresh + 1))
    ∧ (∀ (mint : Nat → String) (caps : Option Capabilities) (tcId : String)
        (tool : Option ChatTool) (urls : List (String × String))
        (r : CallToolResult) (fresh : Nat) (mt dt : String),
      r.content = [.audio mt dt] → capAudio caps = false →
      buildToolMessages mint caps tcId tool urls r fresh
        = .ok ([ChatMessage.tool tcId (audioTokenNotice (mint fresh))],
               { r with meta := pushAudioEntry r.meta (mintedAudioEntry mint fresh mt dt) },
               fresh + 1)) := by
  refine ⟨?_, ?_, ?_, ?_⟩
  · intro mint caps tcId tool urls r fresh mt dt hcontent hcap
    obtain ⟨rc, rm, re⟩ := r
    have hc : rc = [ToolContent.image mt dt] := hcontent
    subst hc
    unfold buildToolMessages
    rw [show adaptAll mint caps tcId tool urls ⟨[], [], rm, fresh⟩
          [ToolContent.image mt dt]
        = Except.ok ⟨[imageInlineNotice],
            [ChatMessage.assistant ⟨"Ok.", none, none⟩,
             ChatMessage.userParts [.text (imageFileHeader tcId),
               .imageUrl (dataUrl mt dt)]],
            rm, fresh⟩ from by simp [adaptAll, adaptContent, hcap]]
    rfl
  · intro mint caps tcId tool urls r fresh mt dt hcontent hcap
    obtain ⟨rc, rm, re⟩ := r
    have hc : rc = [ToolContent.image mt dt] := hcontent
    subst hc
    unfold buildToolMessages
    rw [show adaptAll mint caps tcId tool urls ⟨[], [], rm, fresh⟩
          [ToolContent.image mt dt]
        = Except.ok ⟨[imageTokenNotice (mint fresh)], [],
            pushImageEntry rm (mintedImageEntry mint fresh mt dt),
            fresh + 1⟩ from by
      simp [adaptAll, adaptContent, hcap, mintedImageEntry]]
    rfl
  · intro mint caps tcId tool urls r fresh mt dt hcontent hcap
    obtain ⟨rc, rm, re⟩ := r
    have hc : rc = [ToolContent.audio mt dt] := hcontent
    subst hc
    unfold buildToolMessages
    rw [show adaptAll mint caps tcId tool urls ⟨[], [], rm, fresh⟩
          [ToolContent.audio mt dt]
        = Except.ok ⟨[audioInlineNotice],
            [ChatMessage.assistant ⟨"Ok.", none, none⟩,
             ChatMessage.userText (audioAvailableMessage (mint fresh))],
            pushAudioEntry rm (mintedAudioEntry mint fresh mt dt),
            fresh + 1⟩ from by
      simp [adaptAll, adaptContent, hcap, mintedAudioEntry]]
    rfl
  · intro mint caps tcId tool urls r fresh mt dt hcontent hcap
    obtain ⟨rc, rm, re⟩ := r
    have hc : rc = [ToolContent.audio mt dt] := hcontent
    subst hc
    unfold buildToolMessages
    rw [show adaptAll mint caps tcId tool urls ⟨[], [], rm, fresh⟩
          [ToolContent.audio mt dt]
        = Except.ok ⟨[audioTokenNotice (mint fresh)], [],
            pushAudioEntry rm (mintedAudioEntry mint fresh mt dt),
            fresh + 1⟩ from by
      simp [adaptAll, adaptContent, hcap, mintedAudioEntry]]
    rfl

/-- Witness for C4 amended: the image branches at concrete inputs. -/
theorem c4_amended_witness :
    buildToolMessages mintW (some ⟨true, false⟩) "call_4" none []
      ⟨[.image "image/png" "QUJD"], none, false⟩ 0
      = .ok ([ChatMessage.tool "call_4" imageInlineNotice,
              ChatMessage.assistant ⟨"Ok.", none, none⟩,
              ChatMessage.userParts [.text (imageFileHeader "call_4"),
                .imageUrl (dataUrl "image/png" "QUJD")]],
             ⟨[.image "image/png" "QUJD"], none, false⟩, 0)
    ∧ buildToolMessages mintW (some ⟨false, false⟩) "call_5" none []
      ⟨[.image "image/png" "QUJD"], none, false⟩ 0
      = .ok ([ChatMessage.tool "call_5" (imageTokenNotice "w")],
             ⟨[.image "image/png" "QUJD"],
              some ⟨[⟨"w", "data:image/png;base64,QUJD", "100%", "auto"⟩], [], []⟩,
              false⟩, 1) := by
  constructor
  · exact (c4_amended.1 mintW (some ⟨true, false⟩) "call_4" none []
      ⟨[.image "image/png" "QUJD"], none, false⟩ 0 "image/png" "QUJD" rfl rfl)
  · exact (c4_amended.2.1 mintW (some ⟨false, false⟩) "call_5" none []
      ⟨[.image "image/png" "QUJD"], none, false⟩ 0 "image/png" "QUJD" rfl rfl).trans
      (by decide)

/-! ## Claim C7 -/

/-- `body.messages[body.messages.length - 1]` is user- or tool-authored. -/
def lastIsUserOrTool (msgs : List ChatMessage) : Bool :=
  match msgs.getLast? with
  | some m => isUserOrTool m
  | none => false

theorem ensureLastStep_eq (st : DriverState) :
    ensureLastStep st
      = if lastIsUserOrTool st.messages then .send st else ensureLastPull st := by
  unfold ensureLastStep lastIsUserOrTool
  cases st.messages.getLast? with
  | none => rfl
  | some m => cases h : isUserOrTool m <;> simp [h]

theorem ensureLastPull_ne_send (st : DriverState) (s : DriverState) :
    ensureLastPull st ≠ .send s := by
  unfold ensureLastPull
  cases st.source with
  | none => exact fun h => EnsureStep.noConfusion h
  | some batches =>
    cases hc : st.continueFinalMessage with
    | true => simp
    | false =>
      cases batches with
      | nil => simp
      | cons b rest => simp

/-- The concrete driver state of the C7 counterexample: a trailing assistant
message, `continue_final_message` set, and a ready user batch. -/
def spinState : DriverState :=
  ⟨[.assistant ⟨"hi", none, none⟩], true, some [[.userText "next"]]⟩

/-- C7 counterexample: with `continue_final_message` set and a non-user/tool
last message, one iteration of the `while (true)` loop leaves the state
unchanged — the driver neither sends, nor fails, nor consumes the pending
batch from the external source, so it loops forever (the fueled iteration
never produces a result) instead of suspending until the source yields and
appending its batch. -/
theorem c7_counterexample :
    ensureLastStep spinState = .again spinState
    ∧ ensureLastIter 50 spinState = none := by
  exact ⟨rfl, rfl⟩

/-- C7 amended: the driver sends a request only when the last accumulated
message has role user or tool (every successful exit of the loop satisfies
this); when the last message is not user/tool-authored and no external
user-message source exists, it fails with the protocol-violation error
(`'Last message must not be from the assistant.'`) instead of sending; when
a source exists and `continue_final_message` is unset, the loop consumes the
source's next batch and appends it (failing with `'No user message
provided...'` when the source is exhausted) — but when
`continue_final_message` is set, the loop repeats without consuming the
source, so the claim's "suspends until the source yields the next batch and
appends it" holds only with `continue_final_message` unset. -/
theorem c7_amended :
    (∀ (n : Nat) (st st' : DriverState),
      ensureLastIter n st = some (.ok st') →
      lastIsUserOrTool st'.messages = true)
    ∧ (∀ st : DriverState,
      lastIsUserOrTool st.messages = false → st.source = none →
      ensureLastStep st = .fail .lastMessageFromAssistant)
    ∧ (∀ (st : DriverState) (b : List ChatMessage) (rest : List (List ChatMessage)),
      lastIsUserOrTool st.messages = false → st.continueFinalMessage = false →
      st.source = some (b :: rest) →
      ensureLastStep st = .again ⟨st.messages ++ b, false, some rest⟩)
    ∧ (∀ st : DriverState,
      lastIsUserOrTool st.messages = false → st.continueFinalMessage = false →
      st.source = some [] →
      ensureLastStep st = .fail .noUserMessageProvided)
    ∧ (∀ st : DriverState,
      lastIsUserOrTool st.messages = false → st.continueFinalMessage = true →
      st.source ≠ none →
      ensureLastStep st = .again st) := by
  refine ⟨?_, ?_, ?_, ?_, ?_⟩
  · intro n
    induction n with
    | zero => intro st st' h; exact Option.noConfusion h
    | succ n ih =>
      intro st st' h
      unfold ensureLastIter at h
      cases hs : ensureLastStep st with
      | send s =>
        rw [hs] at h
        simp only [Option.some.injEq, Except.ok.injEq] at h
        subst h
        rw [ensureLastStep_eq] at hs
        by_cases hl : lastIsUserOrTool st.messages = true
        · rw [if_pos hl] at hs
          injection hs with hss
          rw [← hss]
          exact hl
        · rw [if_neg hl] at hs
          exact absurd hs (ensureLastPull_ne_send st s)
      | fail e => rw [hs] at h; simp at h
      | again s => rw [hs] at h; exact ih s st' h
  · intro st h1 h2
    obtain ⟨msgs, cf, src⟩ := st
    have h2' : src = none := h2
    subst h2'
    rw [ensureLastStep_eq, if_neg (by rw [h1]; exact Bool.false_ne_true)]
    rfl
  · intro st b rest h1 h2 h3
    obtain ⟨msgs, cf, src⟩ := st
    have h2' : cf = false := h2
    subst h2'
    have h3' : src = some (b :: rest) := h3
    subst h3'
    rw [ensureLastStep_eq, if_neg (by rw [h1]; exact Bool.false_ne_true)]
    rfl
  · intro st h1 h2 h3
    obtain ⟨msgs, cf, src⟩ := st
    have h2' : cf = false := h2
    subst h2'
    have h3' : src = some [] := h3
    subst h3'
    rw [ensureLastStep_eq, if_neg (by rw [h1]; exact Bool.false_ne_true)]
    rfl
  · intro st h1 h2 h3
    obtain ⟨msgs, cf, src⟩ := st
    have h2' : cf = true := h2
    subst h2'
    cases hsrc : src with
    | none => exact absurd hsrc h3
    | some batches =>
      subst hsrc
      rw [ensureLastStep_eq, if_neg (by rw [h1]; exact Bool.false_ne_true)]
      rfl

/-- Witness for C7 amended at concrete driver states. -/
theorem c7_amended_witness :
    lastIsUserOrTool [ChatMessage.userText "hi"] = true
    ∧ ensureLastStep ⟨[ChatMessage.assistant ⟨"hi", none, none⟩], false, none⟩
        = .fail .lastMessageFromAssistant
    ∧ ensureLastStep ⟨[ChatMessage.assistant ⟨"hi", none, none⟩], false,
        some [[ChatMessage.userText "next"]]⟩
        = .again ⟨[ChatMessage.assistant ⟨"hi", none, none⟩]
            ++ [ChatMessage.userText "next"], false, some []⟩
    ∧ ensureLastStep ⟨[ChatMessage.assistant ⟨"hi", none, none⟩], false, some []⟩
        = .fail .noUserMessageProvided
    ∧ ensureLastStep ⟨[ChatMessage.assistant ⟨"x", none, none⟩], true, some []⟩
        = .again ⟨[ChatMessage.assistant ⟨"x", none, none⟩], true, some []⟩ := by
  refine ⟨?_, ?_, ?_, ?_, ?_⟩
  · exact c7_amended.1 1 ⟨[ChatMessage.userText "hi"], false, none⟩ _ rfl
  · exact c7_amended.2.1 _ rfl rfl
  · exact c7_amended.2.2.1 _ [ChatMessage.userText "next"] [] rfl rfl rfl
  · exact c7_amended.2.2.2.1 _ rfl rfl rfl
  · exact c7_amended.2.2.2.2 _ rfl rfl (fun h => Option.noConfusion h)

/-! ## Claim C9 -/

/-- The coordinator state reached after a user line starts a turn, the
driver takes the queued batch, and the driver loop then dies in its `catch`:
`processing` is still set, the driver is gone, and the output holds the
restart notice. -/
def c9DeadState : CoordState :=
  ⟨true, false, false, [], [restartNotice "Error: Tool [object Object] not found."]⟩

/-- C9: the session coordinator does write the visible
`Chat error (restarting)` notice when a structural error escalates out of
the turn loop — but it does NOT re-arm.  The driver's async loop returns for
good from its `catch` (`src/main.ts:261-264`) and nothing resets the
`processing` flag, so a subsequent complete user input line is ignored by
the `line` handler (`src/main.ts:272-273`): the state is unchanged, nothing
is queued, and no new turn can start.  Evaluated at the failing input: a
turn whose tool call names an unknown tool. -/
theorem c9_restart_never_rearms :
    ([CoordEvent.line "hi", CoordEvent.driverTake,
      CoordEvent.driverError "Error: Tool [object Object] not found."].foldl
        coordStep ⟨false, false, true, [], []⟩) = c9DeadState
    ∧ coordStep c9DeadState (.line "again") = c9DeadState := by
  exact ⟨by decide, by decide⟩

/-! ## Claim C10 -/

/-- C10: the registry advertises every tool under its declared name with
only the FIRST `-` replaced by `_` (later dashes kept, e.g.
`set-light-brightness` becomes `set_light-brightness`); lookups of the
provider map and of the original-name map return the LAST registration whose
transformed name matches (so two declared names differing only in their
first dash versus underscore collide and the later registration wins); and
at invocation time — outside the `get-time` intercept — the owning provider
is called with the ORIGINAL declared name. -/
theorem c10_registry_naming :
    replaceFirstDash "set-light-brightness" = "set_light-brightness"
    ∧ (∀ (provs : List LLMTools) (key : String),
      recordGet (prepareTools provs).map key
        = (((toolTuples provs).filter
            (fun e => replaceFirstDash e.2.fn.name == key)).getLast?).map
          (fun e => e.1))
    ∧ (∀ (provs : List LLMTools) (key : String),
      recordGet (prepareTools provs).originalNames key
        = (((toolTuples provs).filter
            (fun e => replaceFirstDash e.2.fn.name == key)).getLast?).map
          (fun e => e.2.fn.name))
    ∧ (∀ (pt : PreparedTools) (tc : ToolCall) (tool : LLMTools) (orig : String),
      recordGet pt.map tc.fn.name = some tool →
      recordGet pt.originalNames tc.fn.name = some orig →
      orig ≠ TimeToolFunctionName →
      toolCall pt tc
        = (tool.callLLMTool tc.id orig tc.fn.arguments).map ToolResponse.result) := by
  refine ⟨by decide, ?_, ?_, ?_⟩
  · intro provs key
    show recordGet (prepMap (toolTuples provs)) key = _
    unfold prepMap
    rw [recordGet_foldl_set key
      (fun (e : LLMTools × ChatTool) => replaceFirstDash e.2.fn.name)
      (fun (e : LLMTools × ChatTool) => e.1) (toolTuples provs) []]
    rw [recordGet_nil, overr_none_right, getLast?_map]
  · intro provs key
    show recordGet (prepOriginalNames (toolTuples provs)) key = _
    unfold prepOriginalNames
    rw [recordGet_foldl_set key
      (fun (e : LLMTools × ChatTool) => replaceFirstDash e.2.fn.name)
      (fun (e : LLMTools × ChatTool) => e.2.fn.name) (toolTuples provs) []]
    rw [recordGet_nil, overr_none_right, getLast?_map]
  · intro pt tc tool orig h1 h2 h3
    unfold toolCall
    rw [h1, h2]
    have horig : (orig == TimeToolFunctionName) = false := beq_eq_false_iff_ne.mpr h3
    show (if (orig == TimeToolFunctionName) = true
        then Except.ok (ToolResponse.timeString callGetTimeTool)
        else (tool.callLLMTool tc.id orig tc.fn.arguments).map ToolResponse.result)
      = _
    rw [if_neg (by rw [horig]; exact Bool.false_ne_true)]

/-- Two providers declaring `get-time` and `get_time`: both names map to the
advertised key `get_time`, and the later registration wins. -/
def timeProviderA : LLMTools :=
  ⟨11, .ok [⟨"function", ⟨"get-time", "Time A.", none⟩⟩],
    fun _ _ _ => .ok ⟨[.text "A"], none, false⟩⟩

def timeProviderB : LLMTools :=
  ⟨12, .ok [⟨"function", ⟨"get_time", "Time B.", none⟩⟩],
    fun _ _ _ => .ok ⟨[.text "B"], none, false⟩⟩

/-- A provider declaring a two-dash tool name, used to witness the
first-dash-only rename and original-name invocation. -/
def lightProvider : LLMTools :=
  ⟨13, .ok [⟨"function", ⟨"set-light-brightness", "Sets brightness.", none⟩⟩],
    fun _ name _ => .ok ⟨[.text name], none, false⟩⟩

/-- Witness for C10: the dash collision resolves to the later provider, the
original-name map keeps the later declared spelling, and a call through the
registry reaches the provider under its original two-dash name. -/
theorem c10_witness :
    (recordGet (prepareTools [timeProviderA, timeProviderB]).map "get_time").map
        (fun p => p.pid) = some 12
    ∧ recordGet (prepareTools [timeProviderA, timeProviderB]).originalNames "get_time"
        = some "get_time"
    ∧ toolCall (prepareTools [lightProvider])
        ⟨"call_10", "function", ⟨"set_light-brightness", []⟩⟩
        = .ok (.result ⟨[.text "set-light-brightness"], none, false⟩) := by
  refine ⟨?_, ?_, ?_⟩
  · rw [c10_registry_naming.2.1 [timeProviderA, timeProviderB] "get_time"]
    rfl
  · rw [c10_registry_naming.2.2.1 [timeProviderA, timeProviderB] "get_time"]
    decide
  · rw [c10_registry_naming.2.2.2 (prepareTools [lightProvider])
      ⟨"call_10", "function", ⟨"set_light-brightness", []⟩⟩ lightProvider
      "set-light-brightness" (by rfl) (by rfl) (by decide)]
    rfl

end ScryptedLLM
